import Mathlib

/-!
# Verification of the citadel-bot order lifecycle manager and allocator

Shallow embedding of `src/order_manager.py` and `src/allocator.py` in Lean 4.

Modelling conventions:
* Python `float` values (times, prices, quantities) are modelled as `ℚ`
  (exact arithmetic; the spec's "within floating tolerance" clauses become
  exact statements).
* Python `dict`s are modelled as insertion-ordered association lists, with
  `dictGet` / `dictInsert` reproducing dict lookup and dict assignment
  (assignment to an existing key keeps its position, new keys append).
* `time.time()` values and venue responses are inputs of the corresponding
  functions: each venue interaction is an explicit parameter.
* Python `sorted` is modelled by the stable insertion sort `sortBy`.
-/

namespace CitadelBot

/-- Python dict lookup `d.get(k)`: first binding of the key (keys are unique
for lists built by `dictInsert`, which mirrors dict assignment). -/
def dictGet [DecidableEq κ] (k : κ) : List (κ × α) → Option α
  | [] => none
  | (k', v) :: rest => if k' = k then some v else dictGet k rest

/-- Python dict assignment `d[k] = v`: overwrite in place if the key exists,
otherwise append at the end (dict insertion order). -/
def dictInsert [DecidableEq κ] (k : κ) (v : α) : List (κ × α) → List (κ × α)
  | [] => [(k, v)]
  | (k', v') :: rest => if k' = k then (k, v) :: rest else (k', v') :: dictInsert k v rest

/-- Python's stable `sorted(xs, ...)`: `le a b` means "a may be placed before b".
Insertion sort; stable, like CPython's sort. -/
def insertOrdered (le : α → α → Bool) (x : α) : List α → List α
  | [] => [x]
  | y :: ys => if le x y then x :: y :: ys else y :: insertOrdered le x ys

/-- Stable sort (models Python `sorted`). -/
def sortBy (le : α → α → Bool) : List α → List α
  | [] => []
  | x :: xs => insertOrdered le x (sortBy le xs)

/-! ## order_manager.py: data model -/

/-- `OrderAction` from RotmanInteractiveTraderApi.py: the side of an order. -/
inductive OrderAction
  | BUY
  | SELL
deriving DecidableEq, Repr

/-- `OrderStatus` from RotmanInteractiveTraderApi.py (the three statuses used
by the order manager). -/
inductive OrderStatus
  | OPEN
  | CANCELLED
  | TRANSACTED
deriving DecidableEq, Repr

/-- `LocalState` enum (order_manager.py lines 23-27). -/
inductive LocalState
  | SENT
  | LIVE
  | CANCEL_SENT
  | DONE
deriving DecidableEq, Repr

/-- `TrackedOrder` dataclass (order_manager.py lines 30-50). -/
structure TrackedOrder where
  order_id : ℕ
  ticker : String
  side : OrderAction
  quantity : ℤ
  price : Option ℚ
  t_created : ℚ
  t_cancel_sent : Option ℚ := none
  state : LocalState := .SENT
  quantity_filled : ℚ := 0
  status : Option OrderStatus := none
deriving DecidableEq, Repr

/-- The manager's bookkeeping `self._orders : dict[int, TrackedOrder]`,
modelled as an insertion-ordered association list. -/
abbrev Orders := List (ℕ × TrackedOrder)

/-! ## order_manager.py: refresh -/

/-- The body of the per-order loop of `OrderManager.refresh` (lines 80-105):
how one tracked order is updated against the three venue buckets.  A bucket
row carries the order id and the optional `quantity_filled` field of the
server record (`o.get("quantity_filled", default)`).  `none` means the order
is deleted from the bookkeeping (the zombie-TTL branch, lines 102-105). -/
def refreshUpdate (ttl now : ℚ) (openB cancB transB : List (ℕ × Option ℚ))
    (oid : ℕ) (tr : TrackedOrder) : Option TrackedOrder :=
  match dictGet oid openB with
  | some qf =>
    some { tr with status := some .OPEN, quantity_filled := qf.getD 0,
                   state := .LIVE }
  | none =>
    match dictGet oid cancB with
    | some qf =>
      some { tr with status := some .CANCELLED,
                     quantity_filled := qf.getD tr.quantity_filled,
                     state := .DONE }
    | none =>
      match dictGet oid transB with
      | some qf =>
        some { tr with status := some .TRANSACTED,
                       quantity_filled := qf.getD tr.quantity_filled,
                       state := .DONE }
      | none =>
        if now - tr.t_created > ttl then none else some tr

/-- First phase of `OrderManager.refresh` (lines 80-105), applied to the whole
bookkeeping. -/
def refreshPass (ttl now : ℚ) (openB cancB transB : List (ℕ × Option ℚ))
    (os : Orders) : Orders :=
  os.filterMap (fun p =>
    (refreshUpdate ttl now openB cancB transB p.1 p.2).map (fun tr => (p.1, tr)))

/-- `OrderManager.refresh` (lines 73-109): the per-order pass followed by the
sweep that drops `DONE` orders to keep memory bounded (lines 107-109). -/
def omRefresh (ttl now : ℚ) (openB cancB transB : List (ℕ × Option ℚ))
    (os : Orders) : Orders :=
  (refreshPass ttl now openB cancB transB os).filter (fun p => p.2.state != .DONE)

/-! ## order_manager.py: queries, cancel, submit -/

/-- `OrderManager.open_orders_for_ticker` (lines 119-120): every tracked order
for the ticker, regardless of state. -/
def openOrdersForTicker (os : Orders) (ticker : String) : List TrackedOrder :=
  (os.map Prod.snd).filter (fun o => o.ticker == ticker)

/-- `OrderManager.cancel_ticker` (lines 122-132).  Returns the ids sent to
`client.cancel_orders` (empty if no cancel call was made) together with the
updated bookkeeping: every non-`DONE` tracked order among those ids moves to
`CANCEL_SENT` with `t_cancel_sent := now`. -/
def cancelTicker (now : ℚ) (ticker : String) (os : Orders) : List ℕ × Orders :=
  let ids := (openOrdersForTicker os ticker).map (·.order_id)
  if ids.isEmpty then ([], os)
  else
    (ids, os.map (fun p =>
      if p.1 ∈ ids ∧ p.2.state ≠ .DONE then
        (p.1, { p.2 with state := .CANCEL_SENT, t_cancel_sent := some now })
      else p))

/-- The classification of a `client.place_order` response that
`OrderManager.submit` performs (lines 142-167): a well-formed dict with an
`order_id` (optionally carrying `quantity_filled` and `status`), the
venue-side risk-limit rejection (message containing "exceed gross trading
limits"), or any other malformed response. -/
inductive PlaceResp
  | accepted (order_id : ℕ) (quantity_filled : Option ℚ) (status : Option OrderStatus)
  | riskReject
  | malformed
deriving DecidableEq, Repr

/-- The two exceptions `OrderManager.submit` can raise:
`OrderRejectedByRiskLimit` (line 147) and `ValueError` (line 164). -/
inductive OMError
  | riskLimit
  | valueError
deriving DecidableEq, Repr

/-- `OrderManager.submit` (lines 134-181): on a well-formed response track the
new order (state `SENT`, `quantity_filled` defaulting to 0, `status`
defaulting to `OPEN`) under its server-assigned id; raise
`OrderRejectedByRiskLimit` on a risk-limit rejection and `ValueError` on any
other malformed response. -/
def omSubmit (now : ℚ) (ticker : String) (side : OrderAction) (quantity : ℤ)
    (price : Option ℚ) (resp : PlaceResp) (os : Orders) :
    Except OMError (ℕ × Orders) :=
  match resp with
  | .riskReject => .error .riskLimit
  | .malformed => .error .valueError
  | .accepted oid qf status =>
    .ok (oid, dictInsert oid
      { order_id := oid, ticker := ticker, side := side, quantity := quantity,
        price := price, t_created := now, t_cancel_sent := none,
        state := .SENT, quantity_filled := qf.getD 0,
        status := some (status.getD .OPEN) } os)

/-! ## order_manager.py: reconcile_target_orders -/

/-- The observable venue calls made during `reconcile_target_orders`. -/
inductive OMEvent
  | cancelled (ticker : String) (ids : List ℕ)
  | submitted (ticker : String) (order_id : ℕ) (side : OrderAction)
      (quantity : ℤ) (price : Option ℚ)
deriving DecidableEq, Repr

/-- A desired per-ticker order intent: `(side, qty, price)`
(order_manager.py line 183). -/
abbrev Desired := List (String × OrderAction × ℤ × Option ℚ)

/-- Lines 188-191 of `reconcile_target_orders`: for every tracked order taken
from a snapshot of `self._orders.values()`, cancel its ticker if the ticker is
not desired.  `snapshot` is the list of tracked orders at entry. -/
def cancelPhase (now : ℚ) (desiredKeys : List String) :
    List TrackedOrder → Orders → Orders × List OMEvent
  | [], os => (os, [])
  | tr :: rest, os =>
    if tr.ticker ∈ desiredKeys then cancelPhase now desiredKeys rest os
    else
      let c := cancelTicker now tr.ticker os
      let r := cancelPhase now desiredKeys rest c.2
      (r.1, (if c.1.isEmpty then [] else [OMEvent.cancelled tr.ticker c.1]) ++ r.2)

/-- Lines 205-210 of `reconcile_target_orders`: was a cancel for this ticker
sent within the cooldown window? -/
def recentlyCancelled (cooldown now : ℚ) (ticker : String) (os : Orders) : Bool :=
  os.any (fun p =>
    p.2.ticker == ticker &&
      match p.2.t_cancel_sent with
      | some ts => decide (now - ts < cooldown)
      | none => false)

/-- How the per-desired-ticker loop of `reconcile_target_orders` ends:
falling off the end of `desired`, the caught risk-limit rejection that stops
the pass with a normal return (lines 218-221), or a `ValueError` from
`submit` that propagates to the caller. -/
inductive LoopExit
  | completed
  | riskStopped
  | valueError
deriving DecidableEq, Repr

/-- Lines 193-221 of `reconcile_target_orders`: the per-desired-ticker loop.
Returns the final bookkeeping, the venue calls made, and how the loop
ended. -/
def reconLoop (cooldown now : ℚ) (env : String → PlaceResp) :
    Orders → Desired → Orders × List OMEvent × LoopExit
  | os, [] => (os, [], .completed)
  | os, (ticker, side, qty, price) :: rest =>
    let existing := openOrdersForTicker os ticker
    if existing.isEmpty then
      if recentlyCancelled cooldown now ticker os then
        reconLoop cooldown now env os rest
      else if qty ≤ 0 then
        reconLoop cooldown now env os rest
      else
        match omSubmit now ticker side qty price (env ticker) os with
        | .ok (oid, os') =>
          let r := reconLoop cooldown now env os' rest
          (r.1, OMEvent.submitted ticker oid side qty price :: r.2.1, r.2.2)
        | .error .riskLimit => (os, [], .riskStopped)
        | .error .valueError => (os, [], .valueError)
    else
      if existing.any (fun o => o.side != side) then
        let c := cancelTicker now ticker os
        let r := reconLoop cooldown now env c.2 rest
        (r.1, (if c.1.isEmpty then [] else [OMEvent.cancelled ticker c.1]) ++ r.2.1,
          r.2.2)
      else
        reconLoop cooldown now env os rest

/-- `OrderManager.reconcile_target_orders` (lines 183-221): the cancel phase
over tickers that are no longer desired, then the per-desired-ticker loop.
`env` gives the venue's `place_order` response for each ticker submitted this
call.  The call raises an exception exactly when the exit is
`LoopExit.valueError`; both other exits are normal returns. -/
def reconcile (cooldown now : ℚ) (env : String → PlaceResp) (desired : Desired)
    (os : Orders) : Orders × List OMEvent × LoopExit :=
  let c := cancelPhase now (desired.map Prod.fst) (os.map Prod.snd) os
  let r := reconLoop cooldown now env c.1 desired
  (r.1, c.2 ++ r.2.1, r.2.2)

/-! ## order_manager.py: operation traces -/

/-- One public `OrderManager` operation together with the external inputs it
consumes (current time, venue query results, venue responses). -/
inductive OMOp
  | refreshOp (now : ℚ) (openB cancB transB : List (ℕ × Option ℚ))
  | cancelOp (now : ℚ) (ticker : String)
  | submitOp (now : ℚ) (ticker : String) (side : OrderAction) (qty : ℤ)
      (price : Option ℚ) (resp : PlaceResp)
  | reconcileOp (now : ℚ) (desired : Desired) (env : String → PlaceResp)

/-- The bookkeeping after one operation (a raised exception leaves the
state reached at the raise point, which for `submit` and
`reconcile_target_orders` is the state before the failing insertion). -/
def stepOp (cooldown ttl : ℚ) (os : Orders) : OMOp → Orders
  | .refreshOp now o c t => omRefresh ttl now o c t os
  | .cancelOp now tk => (cancelTicker now tk os).2
  | .submitOp now tk side qty price resp =>
    match omSubmit now tk side qty price resp os with
    | .ok p => p.2
    | .error _ => os
  | .reconcileOp now desired env => (reconcile cooldown now env desired os).1

/-- Run a sequence of operations from a starting bookkeeping state. -/
def runOps (cooldown ttl : ℚ) (os : Orders) : List OMOp → Orders
  | [] => os
  | op :: rest => runOps cooldown ttl (stepOp cooldown ttl os op) rest

/-- An operation that goes through the manager's public per-tick interface;
`submit` called directly (rather than from `reconcile_target_orders`) is not
managed. -/
def ManagedOp : OMOp → Prop
  | .submitOp _ _ _ _ _ _ => False
  | _ => True

/-! ## order_manager.py: invariants -/

/-- Each instrument has at most one tracked order: tickers of tracked orders
are pairwise distinct. -/
def AtMostOnePerTicker (os : Orders) : Prop :=
  (os.map (fun p => p.2.ticker)).Pairwise (· ≠ ·)

/-- The dict keys are distinct (inherent to a Python dict; an invariant of
the association-list model). -/
def KeysNodup (os : Orders) : Prop :=
  (os.map Prod.fst).Nodup

/-- No two non-`DONE` tracked orders of opposite sides on one instrument. -/
def NoOppositeSides (os : Orders) : Prop :=
  ∀ p ∈ os, ∀ q ∈ os, p.2.ticker = q.2.ticker →
    p.2.state ≠ LocalState.DONE → q.2.state ≠ LocalState.DONE →
    p.2.side = q.2.side

/-! ## Association-list lemmas -/

theorem dictGet_eq_none_of_forall {os : List (κ × α)} [DecidableEq κ] {k : κ}
    (h : ∀ p ∈ os, p.1 ≠ k) : dictGet k os = none := by
  induction os with
  | nil => rfl
  | cons p rest ih =>
    simp only [dictGet]
    rw [if_neg (h p (List.mem_cons_self p rest))]
    exact ih (fun q hq => h q (List.mem_cons_of_mem p hq))

theorem keysNodup_tail {p : ℕ × TrackedOrder} {rest : Orders}
    (hn : KeysNodup (p :: rest)) : KeysNodup rest := by
  simpa [KeysNodup] using (List.nodup_cons.mp (by simpa [KeysNodup] using hn)).2

theorem keysNodup_head {p : ℕ × TrackedOrder} {rest : Orders}
    (hn : KeysNodup (p :: rest)) : dictGet p.1 rest = none := by
  apply dictGet_eq_none_of_forall
  intro q hq hq1
  have h1 : p.1 ∉ rest.map Prod.fst :=
    (List.nodup_cons.mp (by simpa [KeysNodup] using hn)).1
  exact h1 (by simpa [hq1] using List.mem_map_of_mem Prod.fst hq)

theorem dictGet_refreshPass {os : Orders} (ttl now : ℚ)
    (a b c : List (ℕ × Option ℚ)) (oid : ℕ) (hn : KeysNodup os) :
    dictGet oid (refreshPass ttl now a b c os) =
      (dictGet oid os).bind (refreshUpdate ttl now a b c oid) := by
  induction os with
  | nil => rfl
  | cons p rest ih =>
    have hn' : KeysNodup rest := keysNodup_tail hn
    by_cases hk : p.1 = oid
    · subst hk
      have hrest : dictGet p.1 rest = none := keysNodup_head hn
      cases hu : refreshUpdate ttl now a b c p.1 p.2 with
      | none =>
        simp only [refreshPass, List.filterMap_cons, hu, Option.map_none']
        rw [show (List.filterMap _ rest) = refreshPass ttl now a b c rest from rfl,
          ih hn', hrest]
        simp [dictGet, hu]
      | some tr =>
        simp only [refreshPass, List.filterMap_cons, hu, Option.map_some']
        simp [dictGet, hu]
    · cases hu : refreshUpdate ttl now a b c p.1 p.2 with
      | none =>
        simp only [refreshPass, List.filterMap_cons, hu, Option.map_none']
        rw [show (List.filterMap _ rest) = refreshPass ttl now a b c rest from rfl,
          ih hn']
        simp [dictGet, hk]
      | some tr =>
        simp only [refreshPass, List.filterMap_cons, hu, Option.map_some']
        rw [show ((p.1, tr) :: List.filterMap _ rest : Orders)
            = (p.1, tr) :: refreshPass ttl now a b c rest from rfl]
        simp only [dictGet, if_neg hk]
        rw [ih hn']

theorem keys_refreshPass_sublist (ttl now : ℚ) (a b c : List (ℕ × Option ℚ))
    (os : Orders) :
    List.Sublist ((refreshPass ttl now a b c os).map Prod.fst)
      (os.map Prod.fst) := by
  induction os with
  | nil => simp [refreshPass]
  | cons p rest ih =>
    cases hu : refreshUpdate ttl now a b c p.1 p.2 with
    | none =>
      simp only [refreshPass, List.filterMap_cons, hu, Option.map_none', List.map_cons]
      exact List.Sublist.trans ih (List.sublist_cons_self _ _)
    | some tr =>
      simp only [refreshPass, List.filterMap_cons, hu, Option.map_some', List.map_cons]
      exact List.Sublist.cons₂ _ ih

theorem keysNodup_refreshPass {os : Orders} (ttl now : ℚ)
    (a b c : List (ℕ × Option ℚ)) (hn : KeysNodup os) :
    KeysNodup (refreshPass ttl now a b c os) :=
  (keys_refreshPass_sublist ttl now a b c os).nodup hn

theorem dictGet_filter {os : Orders} (q : ℕ × TrackedOrder → Bool) (oid : ℕ)
    (hn : KeysNodup os) :
    dictGet oid (os.filter q) =
      (dictGet oid os).bind (fun tr => if q (oid, tr) then some tr else none) := by
  induction os with
  | nil => rfl
  | cons p rest ih =>
    have hn' : KeysNodup rest := keysNodup_tail hn
    by_cases hk : p.1 = oid
    · subst hk
      have hrest : dictGet p.1 rest = none := keysNodup_head hn
      rcases hq : q p with _ | _
      · rw [List.filter_cons_of_neg (by simp [hq]), ih hn', hrest]
        have hp : q (p.1, p.2) = false := by simpa using hq
        simp [dictGet, hp]
      · rw [List.filter_cons_of_pos (by simp [hq])]
        have hp : q (p.1, p.2) = true := by simpa using hq
        simp [dictGet, hp]
    · rcases hq : q p with _ | _
      · rw [List.filter_cons_of_neg (by simp [hq]), ih hn']
        simp [dictGet, hk]
      · rw [List.filter_cons_of_pos (by simp [hq])]
        simp only [dictGet, if_neg hk]
        exact ih hn'

/-! ## C6: refresh semantics for unknown, cancelled and transacted orders -/

/-- A tracked order used in the C6 counterexample. -/
def c6Order : TrackedOrder :=
  { order_id := 1, ticker := "AAA", side := OrderAction.BUY, quantity := 100,
    price := none, t_created := 0 }

/-- The same order as observed OPEN by the venue (state `LIVE`). -/
def c6OrderLive : TrackedOrder :=
  { c6Order with status := some OrderStatus.OPEN, quantity_filled := 0,
                 state := LocalState.LIVE }

/-- Bookkeeping after a refresh at time 19/10 that sees order 1 as OPEN
(TTL 2). -/
def c6St1 : Orders := omRefresh 2 (19/10) [(1, some 0)] [] [] [(1, c6Order)]

/-- Bookkeeping after a further refresh at time 21/10 in which order 1 is
absent from all three venue buckets. -/
def c6St2 : Orders := omRefresh 2 (21/10) [] [] [] c6St1

/-- C6, counterexample.  The claim says a tracked order absent from all three
venue queries "is removed as a zombie only once it has been unseen by the
venue for longer than the unknown-order TTL".  The code compares `now`
against the order's creation time, not against the time it was last seen
(order_manager.py line 104).  Concretely, with TTL 2: order 1 is seen OPEN by
the refresh at time 19/10, and the refresh at time 21/10 — at which point the
order has been unseen for only 1/5 ≤ 2 — deletes it, because its age since
creation (21/10) exceeds the TTL. -/
theorem C6_counterexample :
    c6St1 = [(1, c6OrderLive)] ∧ c6St2 = [] ∧ ((21:ℚ)/10 - 19/10 ≤ 2) := by
  have h1 : c6St1 = [(1, c6OrderLive)] := by
    show omRefresh 2 (19/10) [(1, some 0)] [] [] [(1, c6Order)] = _
    norm_num [omRefresh, refreshPass, refreshUpdate, dictGet, c6Order, c6OrderLive,
      List.filterMap_cons, List.filter_cons]
    decide
  refine ⟨h1, ?_, by norm_num⟩
  show omRefresh 2 (21/10) [] [] [] c6St1 = _
  rw [h1]
  norm_num [omRefresh, refreshPass, refreshUpdate, dictGet, c6Order, c6OrderLive,
    List.filterMap_cons, List.filter_cons]

/-- C6 (amended): in `refresh()`, a tracked order absent from all three venue
queries keeps its local state, and is removed as a zombie only once its age
since creation (`now - t_created`) exceeds the unknown-order TTL; orders
observed cancelled or transacted transition to `Done` (with updated filled
quantity) in the first phase and are dropped in the same refresh. -/
theorem C6_refresh_zombie_and_done
    (ttl now : ℚ) (a b c : List (ℕ × Option ℚ)) (os : Orders)
    (oid : ℕ) (tr : TrackedOrder) (hn : KeysNodup os)
    (hget : dictGet oid os = some tr) :
    ((dictGet oid a = none → dictGet oid b = none → dictGet oid c = none →
        ((now - tr.t_created ≤ ttl → tr.state ≠ LocalState.DONE →
            dictGet oid (omRefresh ttl now a b c os) = some tr)
          ∧ (now - tr.t_created > ttl →
            dictGet oid (omRefresh ttl now a b c os) = none)))
      ∧ (∀ qf, dictGet oid a = none → dictGet oid b = some qf →
          dictGet oid (refreshPass ttl now a b c os) =
            some { tr with status := some OrderStatus.CANCELLED,
                           quantity_filled := qf.getD tr.quantity_filled,
                           state := LocalState.DONE }
            ∧ dictGet oid (omRefresh ttl now a b c os) = none)
      ∧ (∀ qf, dictGet oid a = none → dictGet oid b = none →
          dictGet oid c = some qf →
          dictGet oid (refreshPass ttl now a b c os) =
            some { tr with status := some OrderStatus.TRANSACTED,
                           quantity_filled := qf.getD tr.quantity_filled,
                           state := LocalState.DONE }
            ∧ dictGet oid (omRefresh ttl now a b c os) = none)) := by
  have hrp := dictGet_refreshPass ttl now a b c oid hn
  have hfil := dictGet_filter
    (fun p => p.2.state != LocalState.DONE) oid
    (keysNodup_refreshPass ttl now a b c hn)
  have hom : dictGet oid (omRefresh ttl now a b c os) =
      (dictGet oid (refreshPass ttl now a b c os)).bind
        (fun tr => if tr.state != LocalState.DONE then some tr else none) := by
    simpa [omRefresh] using hfil
  refine ⟨?_, ?_, ?_⟩
  · intro ha hb hc
    constructor
    · intro hle hstate
      have hnotgt : ¬(now - tr.t_created > ttl) := not_lt.mpr hle
      rw [hom, hrp, hget]
      simp [refreshUpdate, ha, hb, hc, hnotgt, hstate]
    · intro hgt
      rw [hom, hrp, hget]
      simp [refreshUpdate, ha, hb, hc, hgt]
  · intro qf ha hb
    constructor
    · rw [hrp, hget]
      simp [refreshUpdate, ha, hb]
    · rw [hom, hrp, hget]
      simp [refreshUpdate, ha, hb]
  · intro qf ha hb hc
    constructor
    · rw [hrp, hget]
      simp [refreshUpdate, ha, hb, hc]
    · rw [hom, hrp, hget]
      simp [refreshUpdate, ha, hb, hc]

/-! ## Structural invariant of the bookkeeping (C1 / C10) -/

/-- The pair relation underlying the bookkeeping invariant: distinct dict
keys and distinct instruments. -/
def OMRel (p q : ℕ × TrackedOrder) : Prop :=
  p.1 ≠ q.1 ∧ p.2.ticker ≠ q.2.ticker

/-- Structural invariant maintained by the manager's public per-tick
interface: the tracked orders have pairwise distinct keys and pairwise
distinct instruments. -/
def OMInv (os : Orders) : Prop := os.Pairwise OMRel

theorem OMInv_map {os : Orders} (g : ℕ × TrackedOrder → ℕ × TrackedOrder)
    (hg : ∀ p, (g p).1 = p.1 ∧ (g p).2.ticker = p.2.ticker)
    (h : OMInv os) : OMInv (os.map g) := by
  rw [OMInv, List.pairwise_map]
  refine h.imp ?_
  intro a b hab
  exact ⟨by rw [(hg a).1, (hg b).1]; exact hab.1,
    by rw [(hg a).2, (hg b).2]; exact hab.2⟩

theorem OMInv_cancelTicker {os : Orders} (now : ℚ) (tk : String)
    (h : OMInv os) : OMInv (cancelTicker now tk os).2 := by
  unfold cancelTicker
  by_cases hids : ((openOrdersForTicker os tk).map (·.order_id)).isEmpty
  · simpa [hids] using h
  · simp only [hids, if_false, Bool.false_eq_true]
    exact OMInv_map _ (fun p => by split <;> simp) h

theorem refreshUpdate_preserves (ttl now : ℚ) (a b c : List (ℕ × Option ℚ))
    (oid : ℕ) (tr tr' : TrackedOrder)
    (h : refreshUpdate ttl now a b c oid tr = some tr') :
    tr'.ticker = tr.ticker := by
  unfold refreshUpdate at h
  split at h
  · cases h; rfl
  · split at h
    · cases h; rfl
    · split at h
      · cases h; rfl
      · split at h
        · cases h
        · cases h; rfl

theorem mem_refreshPass {os : Orders} {ttl now : ℚ}
    {a b c : List (ℕ × Option ℚ)} {z : ℕ × TrackedOrder}
    (h : z ∈ refreshPass ttl now a b c os) :
    ∃ w ∈ os, z.1 = w.1 ∧ z.2.ticker = w.2.ticker := by
  rw [refreshPass, List.mem_filterMap] at h
  obtain ⟨w, hw, hfw⟩ := h
  rcases hu : refreshUpdate ttl now a b c w.1 w.2 with _ | tr'
  · rw [hu] at hfw; cases hfw
  · rw [hu] at hfw
    simp only [Option.map_some'] at hfw
    cases hfw
    exact ⟨w, hw, rfl, refreshUpdate_preserves ttl now a b c w.1 w.2 tr' hu⟩

theorem OMInv_refreshPass {os : Orders} (ttl now : ℚ)
    (a b c : List (ℕ × Option ℚ)) (h : OMInv os) :
    OMInv (refreshPass ttl now a b c os) := by
  induction os with
  | nil => exact List.Pairwise.nil
  | cons p rest ih =>
    have hhead := (List.pairwise_cons.mp h).1
    have htail := (List.pairwise_cons.mp h).2
    rw [refreshPass, List.filterMap_cons]
    cases hu : refreshUpdate ttl now a b c p.1 p.2 with
    | none => exact ih htail
    | some tr' =>
      simp only [Option.map_some']
      refine List.pairwise_cons.mpr ⟨?_, ih htail⟩
      intro z hz
      obtain ⟨w, hw, hz1, hz2⟩ := mem_refreshPass hz
      have hpw := hhead w hw
      refine ⟨?_, ?_⟩
      · show p.1 ≠ z.1
        rw [hz1]; exact hpw.1
      · show tr'.ticker ≠ z.2.ticker
        rw [hz2, refreshUpdate_preserves ttl now a b c p.1 p.2 tr' hu]
        exact hpw.2

theorem OMInv_omRefresh {os : Orders} (ttl now : ℚ)
    (a b c : List (ℕ × Option ℚ)) (h : OMInv os) :
    OMInv (omRefresh ttl now a b c os) :=
  (OMInv_refreshPass ttl now a b c h).filter _

theorem mem_dictInsert {os : List (κ × α)} [DecidableEq κ] {k : κ} {v : α}
    {q : κ × α} (h : q ∈ dictInsert k v os) : q = (k, v) ∨ q ∈ os := by
  induction os with
  | nil => simpa [dictInsert] using h
  | cons p rest ih =>
    rw [dictInsert] at h
    by_cases hk : p.1 = k
    · rw [if_pos hk] at h
      rcases List.mem_cons.mp h with h1 | h1
      · exact Or.inl h1
      · exact Or.inr (List.mem_cons_of_mem p h1)
    · rw [if_neg hk] at h
      rcases List.mem_cons.mp h with h1 | h1
      · exact Or.inr (by rw [h1]; exact List.mem_cons_self p rest)
      · rcases ih h1 with h2 | h2
        · exact Or.inl h2
        · exact Or.inr (List.mem_cons_of_mem p h2)

theorem OMInv_dictInsert {os : Orders} {k : ℕ} {v : TrackedOrder}
    (h : OMInv os) (ht : ∀ p ∈ os, p.2.ticker ≠ v.ticker) :
    OMInv (dictInsert k v os) := by
  induction os with
  | nil => simp [OMInv, dictInsert]
  | cons p rest ih =>
    have hhead := (List.pairwise_cons.mp h).1
    have htail := (List.pairwise_cons.mp h).2
    rw [dictInsert]
    by_cases hk : p.1 = k
    · rw [if_pos hk]
      refine List.pairwise_cons.mpr ⟨?_, htail⟩
      intro q hq
      refine ⟨?_, ?_⟩
      · show k ≠ q.1
        rw [← hk]; exact (hhead q hq).1
      · show v.ticker ≠ q.2.ticker
        exact fun hc => ht q (List.mem_cons_of_mem p hq) hc.symm
    · rw [if_neg hk]
      refine List.pairwise_cons.mpr ⟨?_, ih htail
        (fun q hq => ht q (List.mem_cons_of_mem p hq))⟩
      intro q hq
      rcases mem_dictInsert hq with h1 | h1
      · subst h1
        exact ⟨hk, ht p (List.mem_cons_self p rest)⟩
      · exact hhead q h1

theorem openOrdersForTicker_nil_iff {os : Orders} {tk : String} :
    openOrdersForTicker os tk = [] ↔ ∀ p ∈ os, p.2.ticker ≠ tk := by
  rw [openOrdersForTicker, List.filter_eq_nil_iff]
  constructor
  · intro h p hp hc
    exact h p.2 (List.mem_map_of_mem Prod.snd hp) (by simpa using hc)
  · intro h o ho
    rw [List.mem_map] at ho
    obtain ⟨p, hp, rfl⟩ := ho
    simpa using h p hp

theorem OMInv_reconLoop {cooldown now : ℚ} {env : String → PlaceResp} :
    ∀ (desired : Desired) (os : Orders), OMInv os →
      OMInv (reconLoop cooldown now env os desired).1 := by
  intro desired
  induction desired with
  | nil => intro os h; exact h
  | cons d rest ih =>
    intro os h
    obtain ⟨ticker, side, qty, price⟩ := d
    rw [reconLoop]
    by_cases hex : (openOrdersForTicker os ticker).isEmpty
    · rw [if_pos hex]
      by_cases hrc : recentlyCancelled cooldown now ticker os
      · rw [if_pos hrc]; exact ih os h
      · rw [if_neg hrc]
        by_cases hqty : qty ≤ 0
        · rw [if_pos hqty]; exact ih os h
        · rw [if_neg hqty]
          cases hresp : env ticker with
          | riskReject => simp only [omSubmit, hresp]; exact h
          | malformed => simp only [omSubmit, hresp]; exact h
          | accepted oid qf status =>
            simp only [omSubmit, hresp]
            refine ih _ (OMInv_dictInsert h ?_)
            intro p hp
            have hempty : openOrdersForTicker os ticker = [] :=
              List.isEmpty_iff.mp hex
            exact openOrdersForTicker_nil_iff.mp hempty p hp
    · rw [if_neg hex]
      by_cases hany : (openOrdersForTicker os ticker).any (fun o => o.side != side)
      · rw [if_pos hany]
        exact ih _ (OMInv_cancelTicker now ticker h)
      · rw [if_neg hany]; exact ih os h

theorem OMInv_cancelPhase {now : ℚ} {keys : List String} :
    ∀ (snapshot : List TrackedOrder) (os : Orders), OMInv os →
      OMInv (cancelPhase now keys snapshot os).1 := by
  intro snapshot
  induction snapshot with
  | nil => intro os h; exact h
  | cons tr rest ih =>
    intro os h
    rw [cancelPhase]
    by_cases hk : tr.ticker ∈ keys
    · rw [if_pos hk]; exact ih os h
    · rw [if_neg hk]
      exact ih _ (OMInv_cancelTicker now tr.ticker h)

theorem OMInv_reconcile {cooldown now : ℚ} {env : String → PlaceResp}
    {desired : Desired} {os : Orders} (h : OMInv os) :
    OMInv (reconcile cooldown now env desired os).1 :=
  OMInv_reconLoop desired _ (OMInv_cancelPhase (os.map Prod.snd) os h)

theorem OMInv_stepOp {cooldown ttl : ℚ} {os : Orders} {op : OMOp}
    (h : OMInv os) (hop : ManagedOp op) : OMInv (stepOp cooldown ttl os op) := by
  cases op with
  | refreshOp now a b c => exact OMInv_omRefresh ttl now a b c h
  | cancelOp now tk => exact OMInv_cancelTicker now tk h
  | submitOp now tk side qty price resp => exact absurd hop (by simp [ManagedOp])
  | reconcileOp now desired env => exact OMInv_reconcile h

theorem OMInv_runOps {cooldown ttl : ℚ} :
    ∀ (ops : List OMOp) (os : Orders), OMInv os → (∀ op ∈ ops, ManagedOp op) →
      OMInv (runOps cooldown ttl os ops) := by
  intro ops
  induction ops with
  | nil => intro os h _; exact h
  | cons op rest ih =>
    intro os h hops
    rw [runOps]
    exact ih _ (OMInv_stepOp h (hops op (List.mem_cons_self op rest)))
      (fun o ho => hops o (List.mem_cons_of_mem op ho))

/-! ## C1 / C10: side exclusivity and one-order-per-instrument -/

/-- C10: at every state reachable from the empty bookkeeping by the
manager's per-tick interface — `refresh`, `cancel_ticker`, and
`reconcile_target_orders` (which is the only caller of `submit`) — each
instrument has at most one tracked order. -/
theorem C10_at_most_one_order_per_instrument (cooldown ttl : ℚ)
    (ops : List OMOp) (h : ∀ op ∈ ops, ManagedOp op) :
    AtMostOnePerTicker (runOps cooldown ttl [] ops) := by
  have hinv : OMInv (runOps cooldown ttl [] ops) :=
    OMInv_runOps ops [] List.Pairwise.nil h
  rw [AtMostOnePerTicker, List.pairwise_map]
  exact hinv.imp (fun hab => hab.2)

/-- A short managed trace: one reconcile pass that submits a BUY, a refresh
that observes it OPEN, and a cancel. -/
def managedOpsExample : List OMOp :=
  [OMOp.reconcileOp 0 [("AAA", OrderAction.BUY, 5, none)]
      (fun _ => PlaceResp.accepted 1 none none),
    OMOp.refreshOp 1 [(1, some 0)] [] [],
    OMOp.cancelOp 2 "AAA"]

/-- Witness for `C10_at_most_one_order_per_instrument` on a concrete trace. -/
theorem C10_at_most_one_order_per_instrument_witness :
    (∀ op ∈ managedOpsExample, ManagedOp op)
      ∧ AtMostOnePerTicker (runOps (1/4) 2 [] managedOpsExample) := by
  have hm : ∀ op ∈ managedOpsExample, ManagedOp op := by
    intro op hop
    fin_cases hop <;> trivial
  exact ⟨hm, C10_at_most_one_order_per_instrument (1/4) 2 managedOpsExample hm⟩

/-- The BUY order tracked after the first direct `submit` of the C1
counterexample trace. -/
def c1TrBuy : TrackedOrder :=
  { order_id := 1, ticker := "AAA", side := OrderAction.BUY, quantity := 100,
    price := none, t_created := 0, quantity_filled := 0,
    status := some OrderStatus.OPEN }

/-- The SELL order tracked after the second direct `submit` of the C1
counterexample trace. -/
def c1TrSell : TrackedOrder :=
  { order_id := 2, ticker := "AAA", side := OrderAction.SELL, quantity := 100,
    price := none, t_created := 0, quantity_filled := 0,
    status := some OrderStatus.OPEN }

/-- C1, counterexample.  The claim quantifies over sequences of the four
operations including `submit` itself: two direct `submit` calls for the same
instrument with opposite sides (both accepted by the venue) reach a state
with a non-Done BUY and a non-Done SELL tracked for instrument "AAA".
(`submit` performs no side-exclusivity check — the guard lives in
`reconcile_target_orders` only.) -/
theorem C1_counterexample :
    runOps (1/4) 2 []
        [OMOp.submitOp 0 "AAA" OrderAction.BUY 100 none
            (PlaceResp.accepted 1 none none),
          OMOp.submitOp 0 "AAA" OrderAction.SELL 100 none
            (PlaceResp.accepted 2 none none)]
      = [(1, c1TrBuy), (2, c1TrSell)]
      ∧ ¬ NoOppositeSides [(1, c1TrBuy), (2, c1TrSell)] := by
  constructor
  · simp [runOps, stepOp, omSubmit, dictInsert, c1TrBuy, c1TrSell]
  · intro h
    have hc := h (1, c1TrBuy) (by simp) (2, c1TrSell) (by simp)
      (by simp [c1TrBuy, c1TrSell]) (by simp [c1TrBuy]) (by simp [c1TrSell])
    simp [c1TrBuy, c1TrSell] at hc

/-- C1 (amended): the side-exclusivity invariant holds at every state
reachable from the empty bookkeeping by `refresh`, `cancel_ticker` and
`reconcile_target_orders` (with `submit` occurring only as invoked by
`reconcile_target_orders`): no two non-Done tracked orders of opposite
sides ever coexist for one instrument. -/
theorem C1_no_opposite_sides_managed (cooldown ttl : ℚ) (ops : List OMOp)
    (h : ∀ op ∈ ops, ManagedOp op) :
    NoOppositeSides (runOps cooldown ttl [] ops) := by
  have hinv : OMInv (runOps cooldown ttl [] ops) :=
    OMInv_runOps ops [] List.Pairwise.nil h
  have htick : (runOps cooldown ttl [] ops).Pairwise
      (fun p q => p.2.ticker ≠ q.2.ticker) := hinv.imp (fun hab => hab.2)
  have hsymm : Symmetric (fun p q : ℕ × TrackedOrder => p.2.ticker ≠ q.2.ticker) :=
    fun _ _ hab => hab.symm
  intro p hp q hq htk _ _
  by_cases hpq : p = q
  · rw [hpq]
  · exact absurd htk (htick.forall hsymm hp hq hpq)

/-- Witness for `C1_no_opposite_sides_managed` on a concrete trace. -/
theorem C1_no_opposite_sides_managed_witness :
    (∀ op ∈ managedOpsExample, ManagedOp op)
      ∧ NoOppositeSides (runOps (1/4) 2 [] managedOpsExample) := by
  have hm : ∀ op ∈ managedOpsExample, ManagedOp op := by
    intro op hop
    fin_cases hop <;> trivial
  exact ⟨hm, C1_no_opposite_sides_managed (1/4) 2 managedOpsExample hm⟩

/-! ## C2 / C7: reconciliation-pass lemmas -/

/-- The (dict key, side) pairs of the tracked orders of one instrument — the
data of the bookkeeping that decides whether and what `reconcile_target_orders`
may submit or cancel for that instrument. -/
def tPairs (os : Orders) (t : String) : List (ℕ × OrderAction) :=
  (os.filter (fun p => p.2.ticker == t)).map (fun p => (p.1, p.2.side))

theorem tPairs_cons {p : ℕ × TrackedOrder} {rest : Orders} {t : String} :
    tPairs (p :: rest) t =
      (if p.2.ticker = t then [(p.1, p.2.side)] else []) ++ tPairs rest t := by
  by_cases hp : p.2.ticker = t
  · rw [tPairs, List.filter_cons_of_pos (by simpa using hp), if_pos hp]
    rfl
  · rw [tPairs, List.filter_cons_of_neg (by simpa using hp), if_neg hp]
    rfl

theorem tPairs_map {t : String} (g : ℕ × TrackedOrder → ℕ × TrackedOrder)
    (hg : ∀ p, (g p).1 = p.1 ∧ (g p).2.ticker = p.2.ticker ∧
      (g p).2.side = p.2.side) :
    ∀ os : Orders, tPairs (os.map g) t = tPairs os t := by
  intro os
  induction os with
  | nil => rfl
  | cons p rest ih =>
    rw [List.map_cons, tPairs_cons, tPairs_cons, ih,
      (hg p).1, (hg p).2.1, (hg p).2.2]

theorem tPairs_cancelTicker (now : ℚ) (tk : String) (os : Orders) (t : String) :
    tPairs (cancelTicker now tk os).2 t = tPairs os t := by
  unfold cancelTicker
  by_cases hids : ((openOrdersForTicker os tk).map (·.order_id)).isEmpty
  · simp [hids]
  · simp only [hids, Bool.false_eq_true, if_false]
    exact tPairs_map _ (fun p => by split <;> simp) os

theorem tPairs_dictInsert {t : String} {oid : ℕ} {v : TrackedOrder}
    (hne : v.ticker ≠ t) :
    ∀ os : Orders, (∀ pr ∈ tPairs os t, pr.1 ≠ oid) →
      tPairs (dictInsert oid v os) t = tPairs os t := by
  intro os
  induction os with
  | nil =>
    intro _
    rw [dictInsert, tPairs_cons, if_neg hne]
    rfl
  | cons p rest ih =>
    intro hid
    rw [dictInsert]
    by_cases hk : p.1 = oid
    · rw [if_pos hk]
      have hpt : p.2.ticker ≠ t := by
        intro hc
        exact hid (p.1, p.2.side) (by rw [tPairs_cons, if_pos hc]; simp) hk
      rw [tPairs_cons, tPairs_cons, if_neg hne, if_neg hpt]
    · rw [if_neg hk, tPairs_cons, tPairs_cons,
        ih (fun pr hpr => hid pr (by rw [tPairs_cons]; exact List.mem_append_right _ hpr))]

theorem openOrdersForTicker_eq_nil_iff_tPairs {os : Orders} {t : String} :
    openOrdersForTicker os t = [] ↔ tPairs os t = [] := by
  rw [openOrdersForTicker_nil_iff, tPairs, List.map_eq_nil_iff,
    List.filter_eq_nil_iff]
  constructor
  · intro h p hp
    simpa using h p hp
  · intro h p hp
    simpa using h p hp

theorem exists_opposite_iff_tPairs {os : Orders} {t : String} {s : OrderAction} :
    (∃ o ∈ openOrdersForTicker os t, o.side ≠ s) ↔
      (∃ pr ∈ tPairs os t, pr.2 ≠ s) := by
  constructor
  · rintro ⟨o, ho, hs⟩
    rw [openOrdersForTicker, List.mem_filter] at ho
    obtain ⟨hom, htk⟩ := ho
    obtain ⟨p, hp, rfl⟩ := List.mem_map.mp hom
    refine ⟨(p.1, p.2.side), ?_, hs⟩
    rw [tPairs, List.mem_map]
    exact ⟨p, List.mem_filter.mpr ⟨hp, htk⟩, rfl⟩
  · rintro ⟨pr, hpr, hs⟩
    rw [tPairs, List.mem_map] at hpr
    obtain ⟨p, hp, rfl⟩ := hpr
    rw [List.mem_filter] at hp
    refine ⟨p.2, ?_, hs⟩
    rw [openOrdersForTicker, List.mem_filter]
    exact ⟨List.mem_map_of_mem Prod.snd hp.1, hp.2⟩

theorem cancelPhase_tPairs (now : ℚ) (keys : List String) (t : String) :
    ∀ (snapshot : List TrackedOrder) (os : Orders),
      tPairs (cancelPhase now keys snapshot os).1 t = tPairs os t := by
  intro snapshot
  induction snapshot with
  | nil => intro os; rfl
  | cons tr rest ih =>
    intro os
    rw [cancelPhase]
    by_cases hk : tr.ticker ∈ keys
    · rw [if_pos hk]; exact ih os
    · rw [if_neg hk]
      rw [ih _]
      exact tPairs_cancelTicker now tr.ticker os t

theorem cancelPhase_no_submitted {now : ℚ} {keys : List String}
    {t : String} {oid : ℕ} {sd : OrderAction} {qn : ℤ} {pr : Option ℚ} :
    ∀ (snapshot : List TrackedOrder) (os : Orders),
      OMEvent.submitted t oid sd qn pr ∉ (cancelPhase now keys snapshot os).2 := by
  intro snapshot
  induction snapshot with
  | nil => intro os; simp [cancelPhase]
  | cons tr rest ih =>
    intro os
    rw [cancelPhase]
    by_cases hk : tr.ticker ∈ keys
    · rw [if_pos hk]; exact ih os
    · rw [if_neg hk]
      intro hmem
      rcases List.mem_append.mp hmem with h1 | h1
      · split at h1 <;> simp_all
      · exact ih _ h1

theorem reconLoop_tPairs_no_submit
    {cooldown now : ℚ} {env : String → PlaceResp} {t : String} {os₀ : Orders}
    (hfresh : ∀ tk oid qf st, env tk = PlaceResp.accepted oid qf st →
      ∀ pr ∈ tPairs os₀ t, pr.1 ≠ oid)
    (hne : tPairs os₀ t ≠ []) :
    ∀ (entries : Desired) (os : Orders), tPairs os t = tPairs os₀ t →
      tPairs (reconLoop cooldown now env os entries).1 t = tPairs os₀ t
        ∧ ∀ oid sd qn pr, OMEvent.submitted t oid sd qn pr ∉
            (reconLoop cooldown now env os entries).2.1 := by
  intro entries
  induction entries with
  | nil =>
    intro os h
    exact ⟨h, by simp [reconLoop]⟩
  | cons d rest ih =>
    intro os h
    obtain ⟨tk, sd', q', p'⟩ := d
    by_cases hex : (openOrdersForTicker os tk).isEmpty = true
    · have htk : tk ≠ t := by
        intro hc
        subst hc
        exact hne (h ▸ openOrdersForTicker_eq_nil_iff_tPairs.mp
          (List.isEmpty_iff.mp hex))
      by_cases hrc : recentlyCancelled cooldown now tk os = true
      · simp only [reconLoop, hex, hrc, if_true]
        exact ih os h
      · by_cases hq : q' ≤ 0
        · simp only [reconLoop, hex, hrc, if_true, if_false, if_pos hq,
            Bool.false_eq_true]
          exact ih os h
        · cases hresp : env tk with
          | accepted oid qf st =>
            have hins : tPairs (dictInsert oid
                { order_id := oid, ticker := tk, side := sd', quantity := q',
                  price := p', t_created := now, t_cancel_sent := none,
                  state := LocalState.SENT, quantity_filled := qf.getD 0,
                  status := some (st.getD OrderStatus.OPEN) } os) t
                = tPairs os₀ t := by
              rw [tPairs_dictInsert (by simpa using htk) os
                (fun pr hpr => hfresh tk oid qf st hresp pr (h ▸ hpr))]
              exact h
            simp only [reconLoop, hex, hrc, if_true, if_false, if_neg hq,
              omSubmit, hresp, Bool.false_eq_true]
            refine ⟨(ih _ hins).1, ?_⟩
            intro oid2 sd2 qn2 pr2
            rw [List.mem_cons]
            rintro (heq | hmem)
            · injection heq with h1
              exact htk h1.symm
            · exact (ih _ hins).2 oid2 sd2 qn2 pr2 hmem
          | riskReject =>
            simp only [reconLoop, hex, hrc, if_true, if_false, if_neg hq,
              omSubmit, hresp, Bool.false_eq_true]
            exact ⟨h, by simp⟩
          | malformed =>
            simp only [reconLoop, hex, hrc, if_true, if_false, if_neg hq,
              omSubmit, hresp, Bool.false_eq_true]
            exact ⟨h, by simp⟩
    · have hcanc : tPairs (cancelTicker now tk os).2 t = tPairs os₀ t :=
        (tPairs_cancelTicker now tk os t).trans h
      by_cases hany : (openOrdersForTicker os tk).any (fun o => o.side != sd') = true
      · simp only [reconLoop, hex, hany, if_true, if_false, Bool.false_eq_true]
        refine ⟨(ih _ hcanc).1, ?_⟩
        intro oid2 sd2 qn2 pr2 hmem
        rcases List.mem_append.mp hmem with h1 | h1
        · split at h1 <;> simp_all
        · exact (ih _ hcanc).2 oid2 sd2 qn2 pr2 h1
      · simp only [reconLoop, hex, hany, if_false, Bool.false_eq_true]
        exact ih os h

theorem reconLoop_append (cooldown now : ℚ) (env : String → PlaceResp) :
    ∀ (d1 : Desired) (os : Orders) (d2 : Desired),
      reconLoop cooldown now env os (d1 ++ d2) =
        (if (reconLoop cooldown now env os d1).2.2 = LoopExit.completed then
          ((reconLoop cooldown now env (reconLoop cooldown now env os d1).1 d2).1,
            (reconLoop cooldown now env os d1).2.1 ++
              (reconLoop cooldown now env
                (reconLoop cooldown now env os d1).1 d2).2.1,
            (reconLoop cooldown now env
              (reconLoop cooldown now env os d1).1 d2).2.2)
        else reconLoop cooldown now env os d1) := by
  intro d1
  induction d1 with
  | nil =>
    intro os d2
    simp [reconLoop]
  | cons d rest ih =>
    intro os d2
    obtain ⟨tk, sd', q', p'⟩ := d
    rw [List.cons_append]
    by_cases hex : (openOrdersForTicker os tk).isEmpty = true
    · by_cases hrc : recentlyCancelled cooldown now tk os = true
      · simp only [reconLoop, hex, hrc, if_true]
        exact ih os d2
      · by_cases hq : q' ≤ 0
        · simp only [reconLoop, hex, hrc, if_true, if_pos hq, Bool.false_eq_true,
            if_false]
          exact ih os d2
        · cases hresp : env tk with
          | accepted oid qf st =>
            simp only [reconLoop, hex, hrc, if_true, if_neg hq, Bool.false_eq_true,
              if_false, omSubmit, hresp]
            rw [ih _ d2]
            by_cases hend : (reconLoop cooldown now env (dictInsert oid
                { order_id := oid, ticker := tk, side := sd', quantity := q',
                  price := p', t_created := now, t_cancel_sent := none,
                  state := LocalState.SENT, quantity_filled := qf.getD 0,
                  status := some (st.getD OrderStatus.OPEN) } os) rest).2.2
                = LoopExit.completed
            · rw [if_pos hend, if_pos hend]
              simp
            · rw [if_neg hend, if_neg hend]
          | riskReject =>
            simp only [reconLoop, hex, hrc, if_true, if_neg hq, Bool.false_eq_true,
              if_false, omSubmit, hresp]
            rw [if_neg (by simp)]
          | malformed =>
            simp only [reconLoop, hex, hrc, if_true, if_neg hq, Bool.false_eq_true,
              if_false, omSubmit, hresp]
            rw [if_neg (by simp)]
    · by_cases hany : (openOrdersForTicker os tk).any (fun o => o.side != sd') = true
      · simp only [reconLoop, hex, hany, if_true, Bool.false_eq_true, if_false]
        rw [ih _ d2]
        by_cases hend : (reconLoop cooldown now env (cancelTicker now tk os).2
            rest).2.2 = LoopExit.completed
        · rw [if_pos hend, if_pos hend]
          simp
        · rw [if_neg hend, if_neg hend]
      · simp only [reconLoop, hex, hany, Bool.false_eq_true, if_false]
        exact ih os d2

/-- C7: if the venue rejects a submission with the risk-limit error during a
`reconcile_target_orders` pass, the pass stops there — the bookkeeping stays
as it was before the rejected submission, no event for the rejected
instrument or any later instrument is produced — and the call returns
normally (`riskStopped`), not by raising (`valueError`), so processing can
resume on the next tick. -/
theorem C7_risk_limit_rejection_stops_pass
    (cooldown now : ℚ) (env : String → PlaceResp) (os₀ : Orders)
    (d1 d2 : Desired) (t : String) (s : OrderAction) (q : ℤ) (p : Option ℚ)
    (hrisk : env t = PlaceResp.riskReject) (hq : 0 < q)
    (os1 : Orders) (ev1 : List OMEvent)
    (hphase : cancelPhase now ((d1 ++ (t, s, q, p) :: d2).map Prod.fst)
        (os₀.map Prod.snd) os₀ = (os1, ev1))
    (os2 : Orders) (ev2 : List OMEvent)
    (hd1 : reconLoop cooldown now env os1 d1 = (os2, ev2, LoopExit.completed))
    (hopen : openOrdersForTicker os2 t = [])
    (hrc : recentlyCancelled cooldown now t os2 = false) :
    reconcile cooldown now env (d1 ++ (t, s, q, p) :: d2) os₀ =
      (os2, ev1 ++ ev2, LoopExit.riskStopped) := by
  have hstep : reconLoop cooldown now env os2 ((t, s, q, p) :: d2) =
      (os2, [], LoopExit.riskStopped) := by
    simp only [reconLoop, hopen, List.isEmpty_nil, if_true, hrc,
      Bool.false_eq_true, if_false, if_neg (not_le.mpr hq), omSubmit, hrisk]
  simp only [reconcile, hphase]
  rw [reconLoop_append, hd1]
  simp only [if_pos rfl]
  rw [hstep]
  simp

/-- Witness for `C7_risk_limit_rejection_stops_pass` at a concrete input:
a single desired BUY whose submission is risk-rejected. -/
theorem C7_risk_limit_rejection_stops_pass_witness :
    (fun _ : String => PlaceResp.riskReject) "AAA" = PlaceResp.riskReject
      ∧ (0 : ℤ) < 1
      ∧ reconcile (1/4) 0 (fun _ => PlaceResp.riskReject)
          [("AAA", OrderAction.BUY, 1, none)] []
        = ([], [], LoopExit.riskStopped) := by
  refine ⟨rfl, by norm_num, ?_⟩
  have h := C7_risk_limit_rejection_stops_pass (1/4) 0
    (fun _ => PlaceResp.riskReject) [] [] [] "AAA" OrderAction.BUY 1 none rfl
    (by norm_num) [] [] rfl [] [] rfl rfl rfl
  simpa using h

/-- The open BUY tracked for instrument "TTT" in the C2 counterexample. -/
def c2Order : TrackedOrder :=
  { order_id := 7, ticker := "TTT", side := OrderAction.BUY, quantity := 10,
    price := none, t_created := 0 }

/-- Bookkeeping with one open BUY for "TTT". -/
def c2Os : Orders := [(7, c2Order)]

/-- Desired intent: a BUY for "XXX" (processed first) and an opposite-side
SELL for "TTT". -/
def c2Desired : Desired :=
  [("XXX", OrderAction.BUY, 1, none), ("TTT", OrderAction.SELL, 10, none)]

/-- C2, counterexample.  The claim says *every* call in which some instrument
has a tracked open order of one side and the desired intent specifies the
opposite side "issues a cancel for the instrument's open orders".  But a
risk-limit rejection earlier in the same pass ends the pass before that
instrument is reached (order_manager.py lines 218-221): with an open BUY for
"TTT", a desired SELL for "TTT", and the venue rejecting the earlier "XXX"
submission, the call returns with *no* events at all — no cancel is issued
for "TTT". -/
theorem C2_counterexample :
    c2Order ∈ openOrdersForTicker c2Os "TTT"
      ∧ c2Order.side ≠ OrderAction.SELL
      ∧ ("TTT", OrderAction.SELL, (10:ℤ), (none : Option ℚ)) ∈ c2Desired
      ∧ reconcile (1/4) 1 (fun _ => PlaceResp.riskReject) c2Desired c2Os
          = (c2Os, [], LoopExit.riskStopped) := by
  refine ⟨by simp [openOrdersForTicker, c2Os, c2Order], by simp [c2Order],
    by simp [c2Desired], ?_⟩
  simp [reconcile, cancelPhase, reconLoop, openOrdersForTicker,
    recentlyCancelled, omSubmit, c2Os, c2Order, c2Desired]

/-- C2 (amended): consider a `reconcile_target_orders` call on a bookkeeping
in which instrument `t` has tracked open orders, under an environment whose
accepted order ids do not collide with `t`'s tracked orders (a venue that
assigns genuinely new ids).  Then (1) the call never submits any order for
`t` — in particular a new order for `t` can only be submitted by a later
call, once no order for `t` is tracked any more — and (2) if the desired
intent for `t` specifies a side opposite to some tracked order of `t` and
the pass actually reaches `t`'s entry (no earlier risk-limit rejection ended
the pass), the call issues a cancel for `t`'s open orders. -/
theorem C2_flip_cancels_without_submitting
    (cooldown now : ℚ) (env : String → PlaceResp) (os₀ : Orders)
    (desired : Desired) (t : String)
    (hfresh : ∀ tk oid qf st, env tk = PlaceResp.accepted oid qf st →
      ∀ pr ∈ tPairs os₀ t, pr.1 ≠ oid)
    (hne : openOrdersForTicker os₀ t ≠ []) :
    (∀ oid sd qn pr, OMEvent.submitted t oid sd qn pr ∉
        (reconcile cooldown now env desired os₀).2.1)
      ∧ (∀ s q p d1 d2, desired = d1 ++ (t, s, q, p) :: d2 →
          (∃ o ∈ openOrdersForTicker os₀ t, o.side ≠ s) →
          (reconLoop cooldown now env
              (cancelPhase now (desired.map Prod.fst) (os₀.map Prod.snd) os₀).1
              d1).2.2 = LoopExit.completed →
          ∃ ids, ids ≠ [] ∧ OMEvent.cancelled t ids ∈
            (reconcile cooldown now env desired os₀).2.1) := by
  have hneP : tPairs os₀ t ≠ [] :=
    fun hc => hne (openOrdersForTicker_eq_nil_iff_tPairs.mpr hc)
  have hphase : tPairs (cancelPhase now (desired.map Prod.fst)
      (os₀.map Prod.snd) os₀).1 t = tPairs os₀ t :=
    cancelPhase_tPairs now (desired.map Prod.fst) t (os₀.map Prod.snd) os₀
  constructor
  · intro oid sd qn pr hmem
    simp only [reconcile] at hmem
    rcases List.mem_append.mp hmem with h1 | h1
    · exact cancelPhase_no_submitted (os₀.map Prod.snd) os₀ h1
    · exact (reconLoop_tPairs_no_submit hfresh hneP desired _ hphase).2
        oid sd qn pr h1
  · intro s q p d1 d2 hsplit hopp hcompl
    subst hsplit
    have h2 : tPairs (reconLoop cooldown now env
        (cancelPhase now ((d1 ++ (t, s, q, p) :: d2).map Prod.fst)
          (os₀.map Prod.snd) os₀).1 d1).1 t = tPairs os₀ t :=
      (reconLoop_tPairs_no_submit hfresh hneP d1 _ hphase).1
    set os2 := (reconLoop cooldown now env
      (cancelPhase now ((d1 ++ (t, s, q, p) :: d2).map Prod.fst)
        (os₀.map Prod.snd) os₀).1 d1).1 with hos2
    have hexF : ¬((openOrdersForTicker os2 t).isEmpty = true) := by
      intro hc
      exact hneP (h2 ▸ openOrdersForTicker_eq_nil_iff_tPairs.mp
        (List.isEmpty_iff.mp hc))
    have hoppP : ∃ o ∈ openOrdersForTicker os2 t, o.side ≠ s := by
      rw [exists_opposite_iff_tPairs, h2]
      exact exists_opposite_iff_tPairs.mp hopp
    have hany : (openOrdersForTicker os2 t).any (fun o => o.side != s) = true := by
      rw [List.any_eq_true]
      obtain ⟨o, ho, hs⟩ := hoppP
      exact ⟨o, ho, by simpa using hs⟩
    refine ⟨(openOrdersForTicker os2 t).map (·.order_id), ?_, ?_⟩
    · intro hc
      rw [List.map_eq_nil_iff] at hc
      exact hexF (by rw [hc]; rfl)
    · simp only [reconcile]
      apply List.mem_append_right
      rw [reconLoop_append, if_pos hcompl]
      apply List.mem_append_right
      have hidsne : ¬(((openOrdersForTicker os2 t).map (·.order_id)).isEmpty
          = true) := by
        intro hc
        rw [List.isEmpty_iff, List.map_eq_nil_iff] at hc
        exact hexF (by rw [hc]; rfl)
      simp only [reconLoop, if_neg hexF, hany, if_true, cancelTicker,
        if_neg hidsne]
      apply List.mem_append_left
      rw [hos2]
      simp

/-- The open BUY used by the C2 witness. -/
def c2wOrder : TrackedOrder :=
  { order_id := 3, ticker := "AAA", side := OrderAction.BUY, quantity := 5,
    price := none, t_created := 0 }

/-- Witness for `C2_flip_cancels_without_submitting`: one open BUY for
"AAA", a desired SELL, a well-behaved venue; the call submits nothing for
"AAA". -/
theorem C2_flip_cancels_without_submitting_witness :
    (openOrdersForTicker [(3, c2wOrder)] "AAA" ≠ [])
      ∧ (∀ oid sd qn pr, OMEvent.submitted "AAA" oid sd qn pr ∉
          (reconcile (1/4) 1 (fun _ => PlaceResp.accepted 9 none none)
            [("AAA", OrderAction.SELL, 5, none)] [(3, c2wOrder)]).2.1) := by
  have hfresh : ∀ tk oid qf st,
      (fun _ : String => PlaceResp.accepted 9 none none) tk
        = PlaceResp.accepted oid qf st →
      ∀ pr ∈ tPairs [(3, c2wOrder)] "AAA", pr.1 ≠ oid := by
    intro tk oid qf st heq pr hpr
    injection heq with h1
    subst h1
    simp [tPairs, List.filter, c2wOrder] at hpr
    rw [hpr]
    norm_num
  have hne : openOrdersForTicker [(3, c2wOrder)] "AAA" ≠ [] := by
    simp [openOrdersForTicker, List.filter, c2wOrder]
  exact ⟨hne, (C2_flip_cancels_without_submitting (1/4) 1
    (fun _ => PlaceResp.accepted 9 none none) _ _ "AAA" hfresh hne).1⟩

/-- A tracked order used in the C6 witness. -/
def c6wOrder : TrackedOrder :=
  { order_id := 5, ticker := "BBB", side := OrderAction.SELL, quantity := 10,
    price := none, t_created := 0 }

/-- Witness for `C6_refresh_zombie_and_done` at a concrete input: an order
unseen by the venue at age 2 with TTL 3 survives a refresh unchanged. -/
theorem C6_refresh_zombie_and_done_witness :
    KeysNodup [(5, c6wOrder)] ∧ dictGet 5 [(5, c6wOrder)] = some c6wOrder
      ∧ ((2:ℚ) - c6wOrder.t_created ≤ 3) ∧ c6wOrder.state ≠ LocalState.DONE
      ∧ dictGet 5 (omRefresh 3 2 [] [] [] [(5, c6wOrder)]) = some c6wOrder := by
  have hn : KeysNodup [(5, c6wOrder)] := by simp [KeysNodup]
  have hget : dictGet 5 [(5, c6wOrder)] = some c6wOrder := by simp [dictGet]
  have hle : (2:ℚ) - c6wOrder.t_created ≤ 3 := by norm_num [c6wOrder]
  have hst : c6wOrder.state ≠ LocalState.DONE := by simp [c6wOrder]
  exact ⟨hn, hget, hle, hst,
    ((C6_refresh_zombie_and_done 3 2 [] [] [] [(5, c6wOrder)] 5 c6wOrder hn
      hget).1 rfl rfl rfl).1 hle hst⟩

/-! ## allocator.py: data model

The allocator works on the fixed universe `TICKERS` (allocator.py line 71);
position, price and legs dictionaries are modelled as total functions on the
universe (`dict.get(t, 0)` / `.get(t, default)` lookups make them total in
the source as well). -/

/-- The instrument universe (allocator.py line 71, in tuple order). -/
inductive Tk
  | AAA
  | BBB
  | CCC
  | DDD
  | ETF
  | IND
deriving DecidableEq, Repr

/-- `TICKERS` (allocator.py line 71). -/
def TICKERS : List Tk := [Tk.AAA, Tk.BBB, Tk.CCC, Tk.DDD, Tk.ETF, Tk.IND]

/-- `Signal` dataclass (allocator.py lines 19-35).  `legs` is the per-unit
leg vector, total on the universe (`legs.get(t, 0)`). -/
structure Signal where
  name : String
  s_dollars : ℚ
  entry_dollars : ℚ
  rt_cost_dollars : ℚ
  legs : Tk → ℚ

/-- `Signal.direction` (allocator.py lines 28-35). -/
def Signal.direction (s : Signal) : ℚ :=
  if s.s_dollars > 0 then 1 else if s.s_dollars < 0 then -1 else 0

/-- `AllocatorConfig` (allocator.py lines 38-68), with the source's default
values (the default `max_shares` dict gives 300000 to ETF and 200000 to the
rest; missing keys default to 200000 via `.get(t, 200_000)`). -/
structure AllocatorConfig where
  gross_limit : ℚ := 50000000
  net_limit : ℚ := 10000000
  max_shares : Tk → ℚ := fun t => if t = Tk.ETF then 300000 else 200000
  top_n : ℕ := 4
  turnover_pct : ℚ := 1/10
  min_threshold : ℚ := 0
  horizon_bars : ℤ := 10
  switch_lambda : ℚ := 1/10
  regime_cutoff : ℚ := 5/2
  w_max : ℚ := 1
  vol_scale_enabled : Bool := false
  target_vol : ℚ := 50000
  vol_halflife : ℤ := 20
  exit_turnover_mult : ℚ := 5
  dd_throttle_enabled : Bool := false
  dd_throttle_threshold : ℚ := 100000
  dd_throttle_factor : ℚ := 1/2

/-- The `ValueError`s raised by the allocator (allocator.py lines 361, 437,
452). -/
inductive AllocError
  | valueError (msg : String)
deriving DecidableEq, Repr

/-- The allocator's mutable state (allocator.py lines 91-107; the
diagnostics-only fields `_last_diag` and `_last_inputs` are omitted — they
feed the read-only `diagnostics()` side channel). -/
structure AllocState where
  prev_pos : Tk → ℚ
  prev_w : List (String × ℚ)
  last_s : List (String × ℚ)
  var_s : List (String × ℚ)
  last_portfolio_value : Option ℚ
  ewma_var : ℚ
  vol_scale : ℚ
  vol_tick_count : ℤ
  peak_pnl : ℚ
  current_pnl : ℚ
  dd_throttle_active : Bool

/-- The state `Allocator.__init__` builds. -/
def allocInitState : AllocState :=
  { prev_pos := fun _ => 0, prev_w := [], last_s := [], var_s := [],
    last_portfolio_value := none, ewma_var := 0, vol_scale := 1,
    vol_tick_count := 0, peak_pnl := 0, current_pnl := 0,
    dd_throttle_active := false }

/-- `Allocator.__init__` (allocator.py lines 89-107): stores the
configuration and the initial state.  It performs no validation of the
configuration and cannot raise; the `Except` result type records that a
Python constructor may in principle raise. -/
def allocInit (_cfg : AllocatorConfig) : Except AllocError AllocState :=
  .ok allocInitState

/-- `Allocator.update_pnl` (allocator.py lines 272-281). -/
def updatePnl (cfg : AllocatorConfig) (current_pnl : ℚ) (st : AllocState) :
    AllocState :=
  let peak := if current_pnl > st.peak_pnl then current_pnl else st.peak_pnl
  let st1 := { st with current_pnl := current_pnl, peak_pnl := peak }
  let active := decide (peak - current_pnl > cfg.dd_throttle_threshold)
  if cfg.dd_throttle_enabled then { st1 with dd_throttle_active := active }
  else st1

/-- `np.clip(x, lo, hi)`. -/
def npClip (x lo hi : ℚ) : ℚ := min (max x lo) hi

/-- Aggregate gross exposure of a position at given prices
(`sum(abs(pos.get(t, 0) * prices.get(t, 0)) for t in TICKERS)`). -/
def grossExposure (prices pos : Tk → ℚ) : ℚ :=
  (TICKERS.map (fun t => |pos t * prices t|)).sum

/-- Aggregate net exposure (`sum(pos.get(t, 0) * prices.get(t, 0) ...)`). -/
def netExposure (prices pos : Tk → ℚ) : ℚ :=
  (TICKERS.map (fun t => pos t * prices t)).sum

/-! ## allocator.py: projection, turnover cap, flatten, vol scaling -/

/-- `Allocator._project` (allocator.py lines 289-310): clip to max shares,
then scale down uniformly if over the gross limit, then scale down uniformly
if over the net limit. -/
def project (cfg : AllocatorConfig) (pos prices : Tk → ℚ) : Tk → ℚ :=
  let pos1 := fun t => npClip (pos t) (-(cfg.max_shares t)) (cfg.max_shares t)
  let gross := grossExposure prices pos1
  let pos2 := if gross > cfg.gross_limit
    then fun t => pos1 t * (cfg.gross_limit / gross) else pos1
  let net := netExposure prices pos2
  if |net| > cfg.net_limit then (fun t => pos2 t * (cfg.net_limit / |net|))
  else pos2

/-- `Allocator._cap_turnover` (allocator.py lines 312-347).  `dd_active` is
the `_dd_throttle_active` flag at the time of the call. -/
def capTurnover (cfg : AllocatorConfig) (dd_active : Bool)
    (prev target : Tk → ℚ) : Tk → ℚ :=
  let basePct := cfg.turnover_pct
  let entryPct := if dd_active then basePct * cfg.dd_throttle_factor else basePct
  fun t =>
    let p := prev t
    let tgt := target t
    let maxSh := cfg.max_shares t
    let pct := if |tgt| < |p| then basePct * cfg.exit_turnover_mult else entryPct
    let maxDelta := maxSh * pct
    p + npClip (tgt - p) (-maxDelta) maxDelta

/-- `Allocator._flatten` (allocator.py lines 283-287). -/
def flatten (cfg : AllocatorConfig) (st : AllocState)
    (current_pos : Option (Tk → ℚ)) : Tk → ℚ :=
  let prev := current_pos.getD st.prev_pos
  capTurnover cfg st.dd_throttle_active prev (fun _ => 0)

/-- `Allocator._update_vol_scale` (allocator.py lines 221-265).  The float
transcendentals are parameters of the model: `alphaOf h` stands for the
smoothing factor `1 - exp(-ln 2 / h)`, and `sqrtQ` for the float square
root. -/
def updateVolScale (cfg : AllocatorConfig) (alphaOf : ℤ → ℚ) (sqrtQ : ℚ → ℚ)
    (current_pos prices : Tk → ℚ) (st : AllocState) : AllocState :=
  if cfg.vol_scale_enabled = false then { st with vol_scale := 1 }
  else
    let pv := netExposure prices current_pos
    match st.last_portfolio_value with
    | none =>
      if |pv| > 1 / 1000000 then
        { st with last_portfolio_value := some pv, vol_tick_count := 1 }
      else st
    | some lastPv =>
      let ret := pv - lastPv
      let tickCount := st.vol_tick_count + 1
      let alpha := alphaOf (max 1 cfg.vol_halflife)
      let ev := (1 - alpha) * st.ewma_var + alpha * (ret * ret)
      if tickCount < cfg.vol_halflife * 2 then
        { st with last_portfolio_value := some pv, vol_tick_count := tickCount,
                  ewma_var := ev, vol_scale := 1 }
      else
        let realized := sqrtQ ev
        if realized > 0 then
          { st with last_portfolio_value := some pv,
                    vol_tick_count := tickCount, ewma_var := ev,
                    vol_scale := npClip (cfg.target_vol / realized) (1/4) 1 }
        else
          { st with last_portfolio_value := some pv,
                    vol_tick_count := tickCount, ewma_var := ev,
                    vol_scale := 1 }

/-! ## allocator.py: edge scoring -/

/-- One step of the EWMA update loop of `_compute_edges` (allocator.py lines
365-379).  The accumulator is `(last_s, var_s, sigma_hat)`. -/
def ewmaStep (alpha : ℚ) (sqrtQ : ℚ → ℚ) (s : Signal)
    (acc : List (String × ℚ) × List (String × ℚ) × List (String × ℚ)) :
    List (String × ℚ) × List (String × ℚ) × List (String × ℚ) :=
  match dictGet s.name acc.1 with
  | none =>
    (dictInsert s.name s.s_dollars acc.1, dictInsert s.name 0 acc.2.1,
      dictInsert s.name 0 acc.2.2)
  | some last =>
    let d := s.s_dollars - last
    let var := (1 - alpha) * ((dictGet s.name acc.2.1).getD 0) + alpha * (d * d)
    (dictInsert s.name s.s_dollars acc.1, dictInsert s.name var acc.2.1,
      dictInsert s.name (sqrtQ var) acc.2.2)

/-- The EWMA update loop of `_compute_edges` over all signals. -/
def ewmaPass (alpha : ℚ) (sqrtQ : ℚ → ℚ) (signals : List Signal)
    (last_s var_s : List (String × ℚ)) :
    List (String × ℚ) × List (String × ℚ) × List (String × ℚ) :=
  signals.foldl (fun acc s => ewmaStep alpha sqrtQ s acc) (last_s, var_s, [])

/-- `l[i]` on a list of rationals (indices in range wherever used). -/
def listNth (l : List ℚ) (i : ℕ) : ℚ := l.getD i 0

/-- The median of the positive sigma values (allocator.py lines 381-389). -/
def medianPositive (sigma : List (String × ℚ)) : ℚ :=
  let ps := sortBy (fun a b => decide (a ≤ b))
    ((sigma.map Prod.snd).filter (fun v => decide (0 < v)))
  if ps.isEmpty then 0
  else
    let mid := ps.length / 2
    if ps.length % 2 = 1 then listNth ps mid
    else (1/2) * (listNth ps (mid - 1) + listNth ps mid)

/-- The edge loop of `_compute_edges` (allocator.py lines 391-413), building
the `edges` dict (the diagnostics dicts `regime_ratio` and `net_raw` are
omitted). -/
def edgesPass (cfg : AllocatorConfig) (sigma : List (String × ℚ))
    (medianSigma : ℚ) (signals : List Signal) : List (String × ℚ) :=
  signals.foldl (fun acc s =>
    let sig := (dictGet s.name sigma).getD 0
    if sig ≤ 0 then acc
    else
      let ratio := if medianSigma > 0 then sig / medianSigma else 0
      let net := |s.s_dollars| - s.entry_dollars - s.rt_cost_dollars
      if medianSigma > 0 ∧ ratio > cfg.regime_cutoff then acc
      else if net ≤ 0 then acc
      else dictInsert s.name (net / sig) acc) []

/-- `Allocator._compute_edges` (allocator.py lines 349-415): raises if
`horizon_bars ≤ 0`, otherwise updates the EWMA state and returns the edges
dict together with the new state. -/
def computeEdges (cfg : AllocatorConfig) (sqrtQ : ℚ → ℚ)
    (signals : List Signal) (st : AllocState) :
    Except AllocError (List (String × ℚ) × AllocState) :=
  if cfg.horizon_bars ≤ 0 then .error (.valueError "horizon_bars must be > 0")
  else
    let alpha := 2 / ((cfg.horizon_bars : ℚ) + 1)
    let e := ewmaPass alpha sqrtQ signals st.last_s st.var_s
    let medianSigma := medianPositive e.2.2
    .ok (edgesPass cfg e.2.2 medianSigma signals,
      { st with last_s := e.1, var_s := e.2.1 })

/-! ## allocator.py: weight optimization -/

/-- `max(values)` over a nonempty list (guarded by an emptiness check at
every use, matching Python's `max`). -/
def listMax : List ℚ → ℚ
  | [] => 0
  | x :: xs => xs.foldl max x

/-- Python's `max(items, key=value)`: the first item of maximal value. -/
def argmaxFirst : List (String × ℚ) → String
  | [] => ""
  | p :: rest => (rest.foldl (fun acc q => if q.2 > acc.2 then q else acc) p).1

/-- The per-name data of one sign pattern in `_optimize_weights`
(allocator.py lines 459-475): box bounds and effective coefficient. -/
structure PatternRow where
  name : String
  lb : ℚ
  ub : ℚ
  coeff : ℚ

/-- Build the rows of one sign pattern (allocator.py lines 460-475): bit `i`
of `mask` set means `w ≥ wprev` for the `i`-th name (sign `+1`). -/
def patternRows (lam wmax : ℚ) (edges wprevVec : List (String × ℚ))
    (mask : ℕ) : List PatternRow :=
  edges.enum.map (fun iz =>
    let wp := (dictGet iz.2.1 wprevVec).getD 0
    if mask.testBit iz.1 then
      { name := iz.2.1, lb := wp, ub := wmax, coeff := iz.2.2 - lam * 1 }
    else
      { name := iz.2.1, lb := 0, ub := min wmax wp,
        coeff := iz.2.2 - lam * (-1) })

/-- The greedy fill of `_optimize_weights` (allocator.py lines 487-496),
over the rows sorted by coefficient: add capacity to each name in order
until the remaining mass is exhausted. -/
def greedyFill : List PatternRow → List (String × ℚ) → ℚ →
    List (String × ℚ) × ℚ
  | [], w, remaining => (w, remaining)
  | row :: rest, w, remaining =>
    if remaining ≤ 1 / 1000000000000000 then (w, remaining)
    else
      let cur := (dictGet row.name w).getD 0
      let cap := row.ub - cur
      if cap ≤ 0 then greedyFill rest w remaining
      else
        let add := if cap < remaining then cap else remaining
        greedyFill rest (dictInsert row.name (cur + add) w) (remaining - add)

/-- Solve one sign pattern of `_optimize_weights` (allocator.py lines
459-507): `none` if the pattern is infeasible, otherwise the filled weights
and the exact objective value. -/
def patternSolve (lam wmax : ℚ) (edges wprevVec : List (String × ℚ))
    (mask : ℕ) : Option (List (String × ℚ) × ℚ) :=
  let rows := patternRows lam wmax edges wprevVec mask
  let sumLb : ℚ := (rows.map (fun r => r.lb)).sum
  let sumUb : ℚ := (rows.map (fun r => r.ub)).sum
  if sumLb - 1 > 1 / 1000000000000 then none
  else if 1 - sumUb > 1 / 1000000000000 then none
  else
    let w0 := rows.map (fun r => (r.name, r.lb))
    let sorted := sortBy (fun a b => decide (a.coeff ≥ b.coeff)) rows
    let g := greedyFill sorted w0 (1 - sumLb)
    if |g.2| > 1 / 1000000000 then none
    else
      let obj := (edges.map (fun p =>
        ((dictGet p.1 g.1).getD 0) * p.2 -
          lam * |((dictGet p.1 g.1).getD 0) - ((dictGet p.1 wprevVec).getD 0)|)).sum
      some (g.1, obj)

/-- `Allocator._optimize_weights` (allocator.py lines 421-515): the exact
L1-penalized simplex optimizer by sign-pattern enumeration. -/
def optimizeWeights (cfg : AllocatorConfig) (edges wprev : List (String × ℚ)) :
    Except AllocError (List (String × ℚ)) :=
  let names := edges.map Prod.fst
  if names.isEmpty then .ok []
  else if listMax (edges.map Prod.snd) ≤ 0 then
    .ok (names.map (fun n => (n, 0)))
  else if cfg.w_max ≤ 0 ∨ cfg.w_max > 1 then
    .error (.valueError "w_max must be in (0, 1]")
  else
    let wprev0 := names.map (fun n => (n, max 0 ((dictGet n wprev).getD 0)))
    let sPrev := (wprev0.map Prod.snd).sum
    let wprevVec :=
      if sPrev > 0 then wprev0.map (fun p => (p.1, p.2 / sPrev))
      else names.map (fun n => (n, 1 / (names.length : ℚ)))
    if cfg.switch_lambda < 0 then
      .error (.valueError "switch_lambda must be >= 0")
    else
      let best := (List.range (2 ^ names.length)).foldl (fun acc mask =>
        match patternSolve cfg.switch_lambda cfg.w_max edges wprevVec mask with
        | none => acc
        | some g =>
          match acc with
          | none => some g
          | some b => if g.2 > b.2 then some g else acc) none
      match best with
      | some b => .ok b.1
      | none =>
        .ok (names.map (fun n => (n, if n = argmaxFirst edges then 1 else 0)))

/-! ## allocator.py: candidate selection and allocate -/

/-- The `top_n` names of an association list ranked by value, descending,
stable (allocator.py lines 154-158). -/
def topByValue (n : ℕ) (l : List (String × ℚ)) : List String :=
  ((sortBy (fun a b => decide (a.2 ≥ b.2)) l).take n).map Prod.fst

/-- The set comprehension of allocator.py line 160 as a deduplicated list.
CPython's set iteration order is hash-based and unspecified; the model fixes
first-occurrence order. -/
def pySet (l : List String) : List String :=
  l.foldl (fun acc n => if n ∈ acc then acc else acc ++ [n]) []

/-- The candidate set of `Allocator.allocate` (allocator.py lines 153-160):
`{n for n in top_edge + top_prev if n in edges}`. -/
def candidateSet (top_n : ℕ) (edges prev_w : List (String × ℚ)) :
    List String :=
  pySet ((topByValue top_n edges ++ topByValue top_n prev_w).filter
    (fun n => (dictGet n edges).isSome))

/-- The active-name list of `allocate` (allocator.py line 169): names with
positive weight, sorted by weight descending. -/
def activeNames (w : List (String × ℚ)) : List String :=
  ((sortBy (fun a b => decide (a.2 ≥ b.2)) w).filter
    (fun p => decide (p.2 > 0))).map Prod.fst

/-- The gross-allocation loop of `allocate` (allocator.py lines 175-196):
every positively weighted signal receives `weight × effective_gross` in
notional, converted to units through its per-unit gross cost and signed by
its direction; leg positions accumulate over the signals. -/
def buildPositions (effectiveGross : ℚ) (sigByName : List (String × Signal))
    (prices : Tk → ℚ) (w : List (String × ℚ)) : Tk → ℚ :=
  w.foldl (fun (acc : Tk → ℚ) (nw : String × ℚ) =>
    if nw.2 ≤ 0 then acc
    else
      match dictGet nw.1 sigByName with
      | none => acc
      | some sig =>
        let unitGross : ℚ := (TICKERS.map (fun t => |sig.legs t * prices t|)).sum
        if unitGross ≤ 0 then acc
        else
          let units := (nw.2 * effectiveGross / unitGross) * sig.direction
          fun t => acc t + sig.legs t * units) (fun _ => (0:ℚ))

/-- `Allocator.allocate` (allocator.py lines 109-219).  Returns the target
position, the active signal names and the new allocator state; `alphaOf` and
`sqrtQ` are the float-transcendental parameters (see `updateVolScale` and
`computeEdges`). -/
def allocate (cfg : AllocatorConfig) (alphaOf : ℤ → ℚ) (sqrtQ : ℚ → ℚ)
    (signals : List Signal) (prices : Tk → ℚ) (current_pos : Option (Tk → ℚ))
    (st₀ : AllocState) :
    Except AllocError ((Tk → ℚ) × List String × AllocState) :=
  let st := match current_pos with
    | some cp => updateVolScale cfg alphaOf sqrtQ cp prices st₀
    | none => st₀
  if signals.isEmpty then .ok (flatten cfg st current_pos, [], st)
  else
    let signals1 := signals.filter
      (fun s => decide (|s.s_dollars| ≥ cfg.min_threshold))
    if signals1.isEmpty then .ok (flatten cfg st current_pos, [], st)
    else
      match computeEdges cfg sqrtQ signals1 st with
      | .error e => .error e
      | .ok (edges, st1) =>
        if edges.isEmpty then .ok (flatten cfg st1 current_pos, [], st1)
        else
          let candidates := candidateSet cfg.top_n edges st1.prev_w
          if candidates.isEmpty then .ok (flatten cfg st1 current_pos, [], st1)
          else
            let candEdges := candidates.map (fun n =>
              (n, (dictGet n edges).getD 0))
            let wprev := candidates.map (fun n =>
              (n, (dictGet n st1.prev_w).getD 0))
            match optimizeWeights cfg candEdges wprev with
            | .error e => .error e
            | .ok w =>
              let sigByName := signals1.foldl
                (fun acc s => dictInsert s.name s acc) []
              let pos0 := buildPositions (cfg.gross_limit * st1.vol_scale)
                sigByName prices w
              let pos1 := project cfg pos0 prices
              let prev := current_pos.getD (fun _ => 0)
              let pos2 := capTurnover cfg st1.dd_throttle_active prev pos1
              .ok (pos2, activeNames w, { st1 with prev_w := w })

/-- Exact square root on perfect-square integral rationals (agreeing with
the real square root there); used to instantiate the `sqrtQ` parameter in
concrete runs, which evaluate it only on such values. -/
def exactSqrt (q : ℚ) : ℚ := (Nat.sqrt q.num.toNat : ℚ)

/-- Instantiation of the `alphaOf` parameter for concrete runs that keep
portfolio vol scaling disabled (the parameter is then never evaluated). -/
def alphaZero (_h : ℤ) : ℚ := 0

/-! ## Arithmetic lemmas about clip, gross and net exposure -/

theorem abs_npClip_le {x d : ℚ} (hd : 0 ≤ d) : |npClip x (-d) d| ≤ d := by
  rw [npClip, abs_le]
  constructor
  · exact le_min (le_max_right x (-d)) (neg_le_self hd)
  · exact min_le_right _ d

theorem grossExposure_nonneg (prices pos : Tk → ℚ) :
    0 ≤ grossExposure prices pos := by
  apply List.sum_nonneg
  intro x hx
  rw [List.mem_map] at hx
  obtain ⟨t, _, rfl⟩ := hx
  exact abs_nonneg _

theorem grossExposure_smul (prices pos : Tk → ℚ) (c : ℚ) :
    grossExposure prices (fun t => pos t * c) =
      grossExposure prices pos * |c| := by
  simp only [grossExposure, TICKERS, List.map_cons, List.map_nil,
    List.sum_cons, List.sum_nil, abs_mul]
  ring

theorem netExposure_smul (prices pos : Tk → ℚ) (c : ℚ) :
    netExposure prices (fun t => pos t * c) = netExposure prices pos * c := by
  simp only [netExposure, TICKERS, List.map_cons, List.map_nil,
    List.sum_cons, List.sum_nil]
  ring

/-! ## C5: the turnover cap -/

/-- C5: per instrument, the position change allowed by `_cap_turnover` is
bounded by `max_shares × effective_turnover_pct`, where the effective
turnover fraction is `turnover_pct × exit_turnover_mult` when the desired
move reduces the magnitude of the position, `turnover_pct ×
dd_throttle_factor` when the drawdown throttle is active and the move is an
entry, and `turnover_pct` otherwise. -/
theorem C5_turnover_bound (cfg : AllocatorConfig) (dd_active : Bool)
    (prev target : Tk → ℚ) (t : Tk)
    (hms : 0 ≤ cfg.max_shares t) (htp : 0 ≤ cfg.turnover_pct)
    (hem : 0 ≤ cfg.exit_turnover_mult) (hdf : 0 ≤ cfg.dd_throttle_factor) :
    |capTurnover cfg dd_active prev target t - prev t| ≤
      cfg.max_shares t *
        (if |target t| < |prev t| then
          cfg.turnover_pct * cfg.exit_turnover_mult
        else if dd_active then cfg.turnover_pct * cfg.dd_throttle_factor
        else cfg.turnover_pct) := by
  simp only [capTurnover, add_sub_cancel_left]
  have hpct : (0:ℚ) ≤
      (if |target t| < |prev t| then
        cfg.turnover_pct * cfg.exit_turnover_mult
      else if dd_active then cfg.turnover_pct * cfg.dd_throttle_factor
      else cfg.turnover_pct) := by
    split_ifs with h1 h2
    · exact mul_nonneg htp hem
    · exact mul_nonneg htp hdf
    · exact htp
  exact abs_npClip_le (mul_nonneg hms hpct)

/-- Witness for `C5_turnover_bound` at a concrete input: default
configuration, previous position 100000 on AAA, target 0 (an exit). -/
theorem C5_turnover_bound_witness :
    (0:ℚ) ≤ ({} : AllocatorConfig).max_shares Tk.AAA
      ∧ (0:ℚ) ≤ ({} : AllocatorConfig).turnover_pct
      ∧ (0:ℚ) ≤ ({} : AllocatorConfig).exit_turnover_mult
      ∧ (0:ℚ) ≤ ({} : AllocatorConfig).dd_throttle_factor
      ∧ |capTurnover {} false (fun _ => 100000) (fun _ => 0) Tk.AAA -
            (fun _ : Tk => (100000:ℚ)) Tk.AAA| ≤
          ({} : AllocatorConfig).max_shares Tk.AAA *
            (if |(fun _ : Tk => (0:ℚ)) Tk.AAA| <
                |(fun _ : Tk => (100000:ℚ)) Tk.AAA| then
              ({} : AllocatorConfig).turnover_pct *
                ({} : AllocatorConfig).exit_turnover_mult
            else if false then
              ({} : AllocatorConfig).turnover_pct *
                ({} : AllocatorConfig).dd_throttle_factor
            else ({} : AllocatorConfig).turnover_pct) := by
  refine ⟨by simp, by norm_num, by norm_num, by norm_num, ?_⟩
  exact C5_turnover_bound {} false (fun _ => 100000) (fun _ => 0) Tk.AAA
    (by simp) (by norm_num) (by norm_num) (by norm_num)

/-! ## C3: risk limits after projection, and the post-turnover-cap failure -/

/-- C3 (amended): the target portfolio immediately after constraint
projection (`_project`) satisfies all three risk limits — gross exposure at
most `gross_limit`, net exposure magnitude at most `net_limit` (both exactly
in rational arithmetic, the float version holding within floating
tolerance), and each instrument's magnitude at most its max shares.  The
turnover cap applied afterwards moves the target back toward the previous
actual position and can violate every one of the limits when that position
does (see the C3 counterexample). -/
theorem C3_project_within_limits (cfg : AllocatorConfig) (pos prices : Tk → ℚ)
    (hg : 0 ≤ cfg.gross_limit) (hn : 0 ≤ cfg.net_limit)
    (hms : ∀ t, 0 ≤ cfg.max_shares t) :
    grossExposure prices (project cfg pos prices) ≤ cfg.gross_limit
      ∧ |netExposure prices (project cfg pos prices)| ≤ cfg.net_limit
      ∧ ∀ t, |project cfg pos prices t| ≤ cfg.max_shares t := by
  simp only [project]
  set pos1 : Tk → ℚ := fun t =>
    npClip (pos t) (-(cfg.max_shares t)) (cfg.max_shares t) with hpos1
  have h1 : ∀ t, |pos1 t| ≤ cfg.max_shares t := fun t => abs_npClip_le (hms t)
  set gross := grossExposure prices pos1 with hgrossdef
  have hg0 : 0 ≤ gross := grossExposure_nonneg prices pos1
  by_cases hgc : gross > cfg.gross_limit
  · have hgpos : 0 < gross := lt_of_le_of_lt hg hgc
    have hscale : 0 ≤ cfg.gross_limit / gross := div_nonneg hg (le_of_lt hgpos)
    have hscale1 : cfg.gross_limit / gross ≤ 1 :=
      (div_le_one hgpos).mpr (le_of_lt hgc)
    rw [if_pos hgc]
    set pos2 : Tk → ℚ := fun t => pos1 t * (cfg.gross_limit / gross) with hpos2
    have hgross2 : grossExposure prices pos2 = cfg.gross_limit := by
      rw [hpos2, grossExposure_smul, abs_of_nonneg hscale, ← hgrossdef,
        mul_comm, div_mul_cancel₀ _ (ne_of_gt hgpos)]
    have h2 : ∀ t, |pos2 t| ≤ cfg.max_shares t := by
      intro t
      rw [hpos2, abs_mul, abs_of_nonneg hscale]
      calc |pos1 t| * (cfg.gross_limit / gross)
          ≤ |pos1 t| * 1 := by
            exact mul_le_mul_of_nonneg_left hscale1 (abs_nonneg _)
        _ = |pos1 t| := mul_one _
        _ ≤ cfg.max_shares t := h1 t
    by_cases hnc : |netExposure prices pos2| > cfg.net_limit
    · have hnpos : 0 < |netExposure prices pos2| := lt_of_le_of_lt hn hnc
      have hnscale : 0 ≤ cfg.net_limit / |netExposure prices pos2| :=
        div_nonneg hn (le_of_lt hnpos)
      have hnscale1 : cfg.net_limit / |netExposure prices pos2| ≤ 1 :=
        (div_le_one hnpos).mpr (le_of_lt hnc)
      rw [if_pos hnc]
      refine ⟨?_, ?_, ?_⟩
      · rw [grossExposure_smul, abs_of_nonneg hnscale]
        calc grossExposure prices pos2 * (cfg.net_limit / |netExposure prices pos2|)
            ≤ grossExposure prices pos2 * 1 :=
              mul_le_mul_of_nonneg_left hnscale1 (grossExposure_nonneg _ _)
          _ = grossExposure prices pos2 := mul_one _
          _ ≤ cfg.gross_limit := le_of_eq hgross2
      · rw [netExposure_smul, abs_mul, abs_of_nonneg hnscale, mul_comm,
          div_mul_cancel₀ _ (ne_of_gt hnpos)]
      · intro t
        rw [abs_mul, abs_of_nonneg hnscale]
        calc |pos2 t| * (cfg.net_limit / |netExposure prices pos2|)
            ≤ |pos2 t| * 1 := mul_le_mul_of_nonneg_left hnscale1 (abs_nonneg _)
          _ = |pos2 t| := mul_one _
          _ ≤ cfg.max_shares t := h2 t
    · rw [if_neg hnc]
      exact ⟨le_of_eq hgross2, not_lt.mp hnc, h2⟩
  · rw [if_neg hgc]
    by_cases hnc : |netExposure prices pos1| > cfg.net_limit
    · have hnpos : 0 < |netExposure prices pos1| := lt_of_le_of_lt hn hnc
      have hnscale : 0 ≤ cfg.net_limit / |netExposure prices pos1| :=
        div_nonneg hn (le_of_lt hnpos)
      have hnscale1 : cfg.net_limit / |netExposure prices pos1| ≤ 1 :=
        (div_le_one hnpos).mpr (le_of_lt hnc)
      rw [if_pos hnc]
      refine ⟨?_, ?_, ?_⟩
      · rw [grossExposure_smul, abs_of_nonneg hnscale]
        calc gross * (cfg.net_limit / |netExposure prices pos1|)
            ≤ gross * 1 := mul_le_mul_of_nonneg_left hnscale1 hg0
          _ = gross := mul_one _
          _ ≤ cfg.gross_limit := not_lt.mp hgc
      · rw [netExposure_smul, abs_mul, abs_of_nonneg hnscale, mul_comm,
          div_mul_cancel₀ _ (ne_of_gt hnpos)]
      · intro t
        rw [abs_mul, abs_of_nonneg hnscale]
        calc |pos1 t| * (cfg.net_limit / |netExposure prices pos1|)
            ≤ |pos1 t| * 1 := mul_le_mul_of_nonneg_left hnscale1 (abs_nonneg _)
          _ = |pos1 t| := mul_one _
          _ ≤ cfg.max_shares t := h1 t
    · rw [if_neg hnc]
      exact ⟨not_lt.mp hgc, not_lt.mp hnc, h1⟩

/-- Witness for `C3_project_within_limits` at a concrete input: the default
configuration, a large position on AAA, unit prices. -/
theorem C3_project_within_limits_witness :
    ((0:ℚ) ≤ ({} : AllocatorConfig).gross_limit)
      ∧ ((0:ℚ) ≤ ({} : AllocatorConfig).net_limit)
      ∧ (∀ t, (0:ℚ) ≤ ({} : AllocatorConfig).max_shares t)
      ∧ grossExposure (fun _ => 1) (project {} (fun _ => 1000000) (fun _ => 1))
          ≤ ({} : AllocatorConfig).gross_limit := by
  have hms : ∀ t, (0:ℚ) ≤ ({} : AllocatorConfig).max_shares t := by
    intro t
    simp only [AllocatorConfig.max_shares]
    split <;> norm_num
  exact ⟨by norm_num, by norm_num, hms,
    (C3_project_within_limits {} (fun _ => 1000000) (fun _ => 1)
      (by norm_num) (by norm_num) hms).1⟩


/-! ### C3 counterexample: a concrete two-tick run

A fresh allocator (tight limits, `horizon_bars = 1`) is driven for two
ticks while the actual position on AAA is 1000000 shares — far beyond every
limit.  On the second tick the signal has a positive edge, the projected
target is 500 shares (within all limits), but the turnover cap pulls the
returned target back toward the oversized actual position: the returned
portfolio holds 900000 AAA shares, violating the max-share cap, the gross
limit and the net limit simultaneously. -/

def c3Cfg : AllocatorConfig :=
  { gross_limit := 50000, net_limit := 50000, max_shares := fun _ => 200000,
    horizon_bars := 1, switch_lambda := 0 }

def c3Prices : Tk → ℚ
  | Tk.AAA => 100
  | _ => 0

def c3Legs : Tk → ℚ
  | Tk.AAA => 1
  | _ => 0

def c3Sig (sd : ℚ) : Signal :=
  { name := "A", s_dollars := sd, entry_dollars := 1, rt_cost_dollars := 1,
    legs := c3Legs }

def c3Prev : Tk → ℚ
  | Tk.AAA => 1000000
  | _ => 0

def c3St1Rec : AllocState :=
  { allocInitState with last_s := [("A", 10)], var_s := [("A", 0)] }

def c3St2Rec : AllocState :=
  { allocInitState with last_s := [("A", 13)], var_s := [("A", 9)] }

theorem c3_hvol : updateVolScale c3Cfg alphaZero exactSqrt c3Prev c3Prices
    c3St1Rec = c3St1Rec := by
  norm_num [updateVolScale, c3Cfg, c3St1Rec, allocInitState]

theorem c3_hfilter : [c3Sig 13].filter
    (fun s => decide (|s.s_dollars| ≥ c3Cfg.min_threshold)) = [c3Sig 13] := by
  norm_num [c3Sig, c3Cfg, List.filter]

theorem c3_hsqrt : exactSqrt 9 = 3 := by
  have hnum : (9:ℚ).num = 9 := by norm_num
  have h9 : Int.toNat (9:ℚ).num = 9 := by rw [hnum]; simp [Int.toNat_ofNat]
  have hs : Nat.sqrt 9 = 3 := by
    have h1 : 3 ≤ Nat.sqrt 9 := Nat.le_sqrt.mpr (by norm_num)
    have h2 : Nat.sqrt 9 < 4 := Nat.sqrt_lt.mpr (by norm_num)
    omega
  rw [exactSqrt, h9, hs]
  norm_num

theorem c3_hedges : computeEdges c3Cfg exactSqrt [c3Sig 13] c3St1Rec =
    Except.ok ([("A", 11/3)], c3St2Rec) := by
  norm_num [computeEdges, ewmaPass, ewmaStep, medianPositive, listNth,
    edgesPass, sortBy, insertOrdered, dictGet, dictInsert, c3Cfg, c3Sig,
    c3St1Rec, c3St2Rec, allocInitState, c3_hsqrt, List.foldl, List.filter]

theorem c3_hcand : candidateSet 4 [("A", 11/3)] [] = ["A"] := by
  norm_num [candidateSet, topByValue, pySet, sortBy, insertOrdered, dictGet,
    List.foldl, List.filter, List.take]

theorem c3_hopt : optimizeWeights c3Cfg [("A", 11/3)] [("A", 0)] =
    Except.ok [("A", 1)] := by
  norm_num [optimizeWeights, patternRows, patternSolve, greedyFill, listMax,
    argmaxFirst, sortBy, insertOrdered, dictGet, dictInsert, c3Cfg,
    List.range, List.enum, List.foldl, Nat.testBit, List.enumFrom]

def c3Tick1 : Except AllocError ((Tk → ℚ) × List String × AllocState) :=
  allocate c3Cfg alphaZero exactSqrt [c3Sig 10] c3Prices (some c3Prev)
    allocInitState

def c3St1 : AllocState :=
  match c3Tick1 with
  | .ok r => r.2.2
  | .error _ => allocInitState

theorem c3St1_eq : c3St1 = c3St1Rec := by
  show (match allocate c3Cfg alphaZero exactSqrt [c3Sig 10] c3Prices
      (some c3Prev) allocInitState with
    | .ok r => r.2.2
    | .error _ => allocInitState) = _
  norm_num [allocate, updateVolScale, flatten, capTurnover, npClip,
    computeEdges, ewmaPass, ewmaStep, medianPositive, listNth, edgesPass,
    candidateSet, topByValue, pySet, sortBy, insertOrdered, dictGet,
    dictInsert, grossExposure, netExposure, allocInitState, c3Cfg, c3Prices,
    c3Sig, c3Prev, TICKERS, c3St1Rec]

def c3Tick2 : Except AllocError ((Tk → ℚ) × List String × AllocState) :=
  allocate c3Cfg alphaZero exactSqrt [c3Sig 13] c3Prices (some c3Prev) c3St1

def c3Target : Tk → ℚ :=
  match c3Tick2 with
  | .ok r => r.1
  | .error _ => fun _ => 0

theorem c3_proj_topn : c3Cfg.top_n = 4 := rfl
theorem c3_proj_mt : c3Cfg.min_threshold = 0 := rfl
theorem c3_proj_prevw : c3St2Rec.prev_w = [] := rfl
theorem c3_proj_dd : c3St2Rec.dd_throttle_active = false := rfl
theorem c3_sig_name (sd : ℚ) : (c3Sig sd).name = "A" := rfl
theorem c3_sig_s (sd : ℚ) : (c3Sig sd).s_dollars = sd := rfl

def c3Pos0 : Tk → ℚ
  | Tk.AAA => 500
  | _ => 0

def c3Final : Tk → ℚ
  | Tk.AAA => 900000
  | _ => 0

theorem c3_hbuild : buildPositions (c3Cfg.gross_limit * c3St2Rec.vol_scale)
    [("A", c3Sig 13)] c3Prices [("A", 1)] = c3Pos0 := by
  funext t
  cases t <;>
    norm_num [buildPositions, List.foldl, dictGet, TICKERS, c3Sig, c3Legs,
      c3Prices, Signal.direction, c3Pos0, c3Cfg, c3St2Rec, allocInitState]

theorem c3_hgross : grossExposure c3Prices c3Pos0 = 50000 := by
  norm_num [grossExposure, TICKERS, c3Prices, c3Pos0]

theorem c3_hnet : netExposure c3Prices c3Pos0 = 50000 := by
  norm_num [netExposure, TICKERS, c3Prices, c3Pos0]

theorem c3_hclip : (fun t => npClip (c3Pos0 t) (-(c3Cfg.max_shares t))
    (c3Cfg.max_shares t)) = c3Pos0 := by
  funext u
  cases u <;> norm_num [npClip, c3Pos0, c3Cfg]

theorem c3_hproj : project c3Cfg c3Pos0 c3Prices = c3Pos0 := by
  simp only [project, c3_hclip]
  rw [c3_hgross]
  have hglim : ¬((50000:ℚ) > c3Cfg.gross_limit) := by norm_num [c3Cfg]
  rw [if_neg hglim, c3_hnet]
  norm_num [c3Cfg]

theorem c3_hcap : capTurnover c3Cfg false c3Prev c3Pos0 = c3Final := by
  funext t
  cases t <;>
    norm_num [capTurnover, npClip, c3Pos0, c3Prev, c3Final, c3Cfg]

theorem c3_hactive : activeNames [("A", (1:ℚ))] = ["A"] := by
  norm_num [activeNames, sortBy, insertOrdered, List.filter]

theorem c3Tick2_eq : c3Tick2 = Except.ok (c3Final, ["A"],
    { c3St2Rec with prev_w := [("A", 1)] }) := by
  show allocate c3Cfg alphaZero exactSqrt [c3Sig 13] c3Prices (some c3Prev)
    c3St1 = _
  rw [c3St1_eq]
  norm_num [allocate, c3_hvol, c3_hfilter, c3_hedges, c3_hcand, c3_proj_topn,
    c3_proj_mt, c3_proj_prevw, c3_proj_dd, c3_sig_name, c3_sig_s, c3_hopt,
    c3_hbuild, c3_hproj, c3_hcap, c3_hactive, dictGet, dictInsert,
    List.filter]

/-- C3, counterexample.  The claim asserts the limits for the portfolio
"after constraint projection and after the turnover cap is applied".  The
second tick of the run above returns a target of 900000 AAA shares at price
100: magnitude 900000 > 200000 max shares, gross exposure 90000000 > 50000
gross limit, |net| 90000000 > 50000 net limit — all three limits violated by
the value `allocate` returns after the turnover cap. -/
theorem C3_counterexample :
    c3Tick2 = Except.ok (c3Final, ["A"],
        { c3St2Rec with prev_w := [("A", 1)] })
      ∧ c3Target Tk.AAA = 900000
      ∧ c3Cfg.max_shares Tk.AAA = 200000
      ∧ ¬(|c3Target Tk.AAA| ≤ c3Cfg.max_shares Tk.AAA)
      ∧ grossExposure c3Prices c3Target = 90000000
      ∧ ¬(grossExposure c3Prices c3Target ≤ c3Cfg.gross_limit)
      ∧ ¬(|netExposure c3Prices c3Target| ≤ c3Cfg.net_limit) := by
  have htgt : c3Target = c3Final := by
    show (match c3Tick2 with
      | Except.ok r => r.1
      | Except.error _ => fun _ => 0) = _
    rw [c3Tick2_eq]
  refine ⟨c3Tick2_eq, ?_, rfl, ?_, ?_, ?_, ?_⟩ <;>
    rw [htgt] <;>
    norm_num [c3Final, grossExposure, netExposure, TICKERS, c3Prices, c3Cfg]


/-! ## C9: the candidate set -/

theorem mem_pySet_foldl (n : String) :
    ∀ (l acc : List String),
      n ∈ l.foldl (fun acc m => if m ∈ acc then acc else acc ++ [m]) acc ↔
        n ∈ acc ∨ n ∈ l := by
  intro l
  induction l with
  | nil => intro acc; simp
  | cons x rest ih =>
    intro acc
    rw [List.foldl_cons, ih]
    by_cases hx : x ∈ acc
    · rw [if_pos hx]
      constructor
      · rintro (h | h)
        · exact Or.inl h
        · exact Or.inr (List.mem_cons_of_mem x h)
      · rintro (h | h)
        · exact Or.inl h
        · rcases List.mem_cons.mp h with rfl | h
          · exact Or.inl hx
          · exact Or.inr h
    · rw [if_neg hx]
      constructor
      · rintro (h | h)
        · rcases List.mem_append.mp h with h1 | h1
          · exact Or.inl h1
          · exact Or.inr (by simpa using List.mem_cons.mpr (Or.inl
              (List.mem_singleton.mp h1)))
        · exact Or.inr (List.mem_cons_of_mem x h)
      · rintro (h | h)
        · exact Or.inl (List.mem_append_left _ h)
        · rcases List.mem_cons.mp h with rfl | h1
          · exact Or.inl (List.mem_append_right _ (List.mem_singleton.mpr rfl))
          · exact Or.inr h1

theorem mem_pySet {n : String} {l : List String} : n ∈ pySet l ↔ n ∈ l := by
  rw [pySet, mem_pySet_foldl]
  simp

/-- C9 (amended): a name is in the candidate set passed to the weight
optimizer iff it is among the top_n names by current edge or the top_n names
by previous weight AND it carries a computed (hence positive) edge this
tick; a top-previous-weight name without a current edge is excluded by the
`if n in edges` filter of allocator.py line 160. -/
theorem C9_candidate_set_membership (top_n : ℕ)
    (edges prev_w : List (String × ℚ)) (n : String) :
    n ∈ candidateSet top_n edges prev_w ↔
      (n ∈ topByValue top_n edges ∨ n ∈ topByValue top_n prev_w)
        ∧ (dictGet n edges).isSome := by
  rw [candidateSet, mem_pySet, List.mem_filter, List.mem_append]

/-- C9, counterexample.  Signal A has the only positive edge; all previous
weight sits on B, which has no positive edge this tick.  B is among the
top-n by previous weight, so the claim's union would contain it, but the
candidate set built by the code is just {A}. -/
theorem C9_counterexample :
    topByValue 1 [("B", (1:ℚ))] = ["B"]
      ∧ candidateSet 1 [("A", (1:ℚ))] [("B", (1:ℚ))] = ["A"]
      ∧ "B" ∉ candidateSet 1 [("A", (1:ℚ))] [("B", (1:ℚ))] := by
  refine ⟨?_, ?_, ?_⟩
  · norm_num [topByValue, sortBy, insertOrdered, List.take]
  · norm_num [candidateSet, topByValue, pySet, sortBy, insertOrdered,
      dictGet, List.take, List.filter, List.foldl]
  · norm_num [candidateSet, topByValue, pySet, sortBy, insertOrdered,
      dictGet, List.take, List.filter, List.foldl]
    simp


/-! ## C4: the switching threshold of the weight optimizer -/

theorem range4_eq : List.range 4 = [0, 1, 2, 3] := by rfl

theorem c4_strAB : (("A" : String) = "B") = False := by simp

theorem greedyFill_stop {rows : List PatternRow} {w : List (String × ℚ)}
    {r : ℚ} (h : r ≤ 1 / 1000000000000000) :
    greedyFill rows w r = (w, r) := by
  cases rows with
  | nil => rfl
  | cons row rest => rw [greedyFill, if_pos h]

theorem c4_tb01 : Nat.testBit 0 1 = false := by rfl

theorem c4_tb11 : Nat.testBit 1 1 = false := by rfl

theorem c4_tb21 : Nat.testBit 2 1 = true := by rfl

theorem c4_tb31 : Nat.testBit 3 1 = true := by rfl

theorem c4_rows0 (lam e0 e1 : ℚ) :
    patternRows lam 1 [("A", e0), ("B", e1)] [("A", 1), ("B", 0)] 0 =
      [{ name := "A", lb := 0, ub := 1, coeff := e0 + lam },
        { name := "B", lb := 0, ub := 0, coeff := e1 + lam }] := by
  norm_num [patternRows, List.enum, List.enumFrom, dictGet, c4_strAB,
    c4_tb01, c4_tb11, c4_tb21, c4_tb31]

theorem c4_rows1 (lam e0 e1 : ℚ) :
    patternRows lam 1 [("A", e0), ("B", e1)] [("A", 1), ("B", 0)] 1 =
      [{ name := "A", lb := 1, ub := 1, coeff := e0 - lam },
        { name := "B", lb := 0, ub := 0, coeff := e1 + lam }] := by
  norm_num [patternRows, List.enum, List.enumFrom, dictGet, c4_strAB,
    c4_tb01, c4_tb11, c4_tb21, c4_tb31]

theorem c4_rows2 (lam e0 e1 : ℚ) :
    patternRows lam 1 [("A", e0), ("B", e1)] [("A", 1), ("B", 0)] 2 =
      [{ name := "A", lb := 0, ub := 1, coeff := e0 + lam },
        { name := "B", lb := 0, ub := 1, coeff := e1 - lam }] := by
  norm_num [patternRows, List.enum, List.enumFrom, dictGet, c4_strAB,
    c4_tb01, c4_tb11, c4_tb21, c4_tb31]

theorem c4_rows3 (lam e0 e1 : ℚ) :
    patternRows lam 1 [("A", e0), ("B", e1)] [("A", 1), ("B", 0)] 3 =
      [{ name := "A", lb := 1, ub := 1, coeff := e0 - lam },
        { name := "B", lb := 0, ub := 1, coeff := e1 - lam }] := by
  norm_num [patternRows, List.enum, List.enumFrom, dictGet, c4_strAB,
    c4_tb01, c4_tb11, c4_tb21, c4_tb31]

theorem c4_ps0 (lam e0 e1 : ℚ) :
    patternSolve lam 1 [("A", e0), ("B", e1)] [("A", 1), ("B", 0)] 0 =
      some ([("A", 1), ("B", 0)], e0) := by
  by_cases h : e1 ≤ e0
  · norm_num [patternSolve, c4_rows0, sortBy, insertOrdered, greedyFill,
      dictGet, dictInsert, c4_strAB, h]
  · norm_num [patternSolve, c4_rows0, sortBy, insertOrdered, greedyFill,
      dictGet, dictInsert, c4_strAB, h]

theorem c4_ps1 (lam e0 e1 : ℚ) :
    patternSolve lam 1 [("A", e0), ("B", e1)] [("A", 1), ("B", 0)] 1 =
      some ([("A", 1), ("B", 0)], e0) := by
  norm_num [patternSolve, c4_rows1, greedyFill_stop, dictGet, c4_strAB]

theorem c4_ps3 (lam e0 e1 : ℚ) :
    patternSolve lam 1 [("A", e0), ("B", e1)] [("A", 1), ("B", 0)] 3 =
      some ([("A", 1), ("B", 0)], e0) := by
  norm_num [patternSolve, c4_rows3, greedyFill_stop, dictGet, c4_strAB]

theorem c4_ps2 (lam e0 e1 : ℚ) :
    patternSolve lam 1 [("A", e0), ("B", e1)] [("A", 1), ("B", 0)] 2 =
      some (if 2 * lam < e1 - e0 then ([("A", 0), ("B", 1)], e1 - 2 * lam)
        else ([("A", 1), ("B", 0)], e0)) := by
  by_cases h2 : 2 * lam < e1 - e0
  · have hs : ¬ (e1 - lam ≤ e0 + lam) := by intro hh; linarith
    have hs2 : ¬ (e1 - lam ≤ lam + e0) := by intro hh; linarith
    rw [if_pos h2]
    norm_num [patternSolve, c4_rows2, sortBy, insertOrdered, greedyFill,
      dictGet, dictInsert, c4_strAB, c4_tb01, c4_tb11, c4_tb21, c4_tb31,
      hs, hs2]
    try ring_nf
  · have hs : e1 - lam ≤ e0 + lam := by push_neg at h2; linarith
    have hs2 : e1 - lam ≤ lam + e0 := by push_neg at h2; linarith
    rw [if_neg h2]
    norm_num [patternSolve, c4_rows2, sortBy, insertOrdered, greedyFill,
      dictGet, dictInsert, c4_strAB, c4_tb01, c4_tb11, c4_tb21, c4_tb31,
      hs, hs2]
    try ring_nf

/-- C4: for the weight optimizer with two candidate signals, both edges
positive, w_max = 1, and previous weight 1 on the incumbent "A" and 0 on the
challenger "B": if the challenger's edge exceeds the incumbent's by more than
2 * switch_lambda the returned weights put 100% on the challenger, otherwise
they leave 100% on the incumbent. -/
theorem C4_switching_threshold (cfg : AllocatorConfig) (e0 e1 : ℚ)
    (h0 : 0 < e0) (h1 : 0 < e1) (hw : cfg.w_max = 1)
    (hl : 0 ≤ cfg.switch_lambda) :
    optimizeWeights cfg [("A", e0), ("B", e1)] [("A", 1), ("B", 0)] =
      Except.ok (if 2 * cfg.switch_lambda < e1 - e0
        then [("A", 0), ("B", 1)] else [("A", 1), ("B", 0)]) := by
  have hps0 := c4_ps0 cfg.switch_lambda e0 e1
  have hps1 := c4_ps1 cfg.switch_lambda e0 e1
  have hps2 := c4_ps2 cfg.switch_lambda e0 e1
  have hps3 := c4_ps3 cfg.switch_lambda e0 e1
  by_cases h2 : 2 * cfg.switch_lambda < e1 - e0
  · rw [if_pos h2] at hps2 ⊢
    have hgt : e0 < e1 - 2 * cfg.switch_lambda := by linarith
    have hnlt : ¬ (e1 - 2 * cfg.switch_lambda < e0) := not_lt.mpr (le_of_lt hgt)
    norm_num [optimizeWeights, hw, listMax, dictGet, c4_strAB, range4_eq,
      hps0, hps1, hps2, hps3, h0.not_le, hl.not_lt, hgt, hnlt, List.foldl]
  · rw [if_neg h2] at hps2 ⊢
    norm_num [optimizeWeights, hw, listMax, dictGet, c4_strAB, range4_eq,
      hps0, hps1, hps2, hps3, h0.not_le, hl.not_lt, List.foldl]

theorem C4_switching_threshold_witness :
    optimizeWeights {} [("A", 1), ("B", 11/10)] [("A", 1), ("B", 0)] =
        Except.ok [("A", 1), ("B", 0)] ∧
      optimizeWeights {} [("A", 1), ("B", 13/10)] [("A", 1), ("B", 0)] =
        Except.ok [("A", 0), ("B", 1)] := by
  have hsl : ({} : AllocatorConfig).switch_lambda = 1/10 := rfl
  constructor
  · have h := C4_switching_threshold {} 1 (11/10) (by norm_num) (by norm_num)
      rfl (by rw [hsl]; norm_num)
    rw [h, if_neg (by rw [hsl]; norm_num)]
  · have h := C4_switching_threshold {} 1 (13/10) (by norm_num) (by norm_num)
      rfl (by rw [hsl]; norm_num)
    rw [h, if_pos (by rw [hsl]; norm_num)]


/-! ## C8: configuration validation -/

theorem computeEdges_err (cfg : AllocatorConfig) (sqrtQ : ℚ → ℚ)
    (signals : List Signal) (st : AllocState) (hh : cfg.horizon_bars ≤ 0) :
    computeEdges cfg sqrtQ signals st =
      Except.error (.valueError "horizon_bars must be > 0") := by
  simp only [computeEdges]
  rw [if_pos hh]

theorem computeEdges_ok (cfg : AllocatorConfig) (sqrtQ : ℚ → ℚ)
    (signals : List Signal) (st : AllocState) (hh : 0 < cfg.horizon_bars)
    (err : AllocError) :
    computeEdges cfg sqrtQ signals st ≠ Except.error err := by
  intro heq
  simp only [computeEdges] at heq
  rw [if_neg (not_le.mpr hh)] at heq
  exact Except.noConfusion heq

theorem optimizeWeights_ok (cfg : AllocatorConfig)
    (edges wprev : List (String × ℚ)) (hw0 : 0 < cfg.w_max)
    (hw1 : cfg.w_max ≤ 1) (hl : 0 ≤ cfg.switch_lambda) (err : AllocError) :
    optimizeWeights cfg edges wprev ≠ Except.error err := by
  intro heq
  have hc3 : (cfg.w_max ≤ 0 ∨ cfg.w_max > 1) = False := by
    apply eq_false
    rintro (h | h)
    · exact absurd h (not_le.mpr hw0)
    · exact absurd h (not_lt.mpr hw1)
  have hc5 : (cfg.switch_lambda < 0) = False := eq_false (not_lt.mpr hl)
  simp only [optimizeWeights, hc3, hc5, if_false] at heq
  repeat' split at heq
  all_goals exact Except.noConfusion heq

theorem allocate_no_error (cfg : AllocatorConfig) (alphaOf : ℤ → ℚ)
    (sqrtQ : ℚ → ℚ) (signals : List Signal) (prices : Tk → ℚ)
    (current_pos : Option (Tk → ℚ)) (st₀ : AllocState)
    (hh : 0 < cfg.horizon_bars) (hw0 : 0 < cfg.w_max) (hw1 : cfg.w_max ≤ 1)
    (hl : 0 ≤ cfg.switch_lambda) (err : AllocError) :
    allocate cfg alphaOf sqrtQ signals prices current_pos st₀ ≠
      Except.error err := by
  intro heq
  simp only [allocate] at heq
  split at heq
  · exact Except.noConfusion heq
  · split at heq
    · exact Except.noConfusion heq
    · split at heq
      next e he => exact computeEdges_ok _ _ _ _ hh e he
      next edges st1 he =>
        split at heq
        · exact Except.noConfusion heq
        · split at heq
          · exact Except.noConfusion heq
          · split at heq
            next e2 he2 => exact optimizeWeights_ok _ _ _ hw0 hw1 hl e2 he2
            next w hw2 => exact Except.noConfusion heq

theorem allocate_horizon_error (cfg : AllocatorConfig) (alphaOf : ℤ → ℚ)
    (sqrtQ : ℚ → ℚ) (signals : List Signal) (prices : Tk → ℚ)
    (current_pos : Option (Tk → ℚ)) (st₀ : AllocState)
    (hh : cfg.horizon_bars ≤ 0)
    (hs : signals.filter
      (fun s => decide (|s.s_dollars| ≥ cfg.min_threshold)) ≠ []) :
    allocate cfg alphaOf sqrtQ signals prices current_pos st₀ =
      Except.error (.valueError "horizon_bars must be > 0") := by
  have h2 : (signals.filter
      (fun s => decide (|s.s_dollars| ≥ cfg.min_threshold))).isEmpty = false := by
    cases hf : signals.filter (fun s => decide (|s.s_dollars| ≥ cfg.min_threshold)) with
    | nil => exact absurd hf hs
    | cons a l => rfl
  have h1 : signals.isEmpty = false := by
    cases signals with
    | nil => simp at hs
    | cons a l => rfl
  simp only [allocate, h1, h2, Bool.false_eq_true, if_false]
  rw [computeEdges_err cfg sqrtQ _ _ hh]

def c8SigW : Signal :=
  { name := "A", s_dollars := 5, entry_dollars := 0, rt_cost_dollars := 0,
    legs := fun _ => 0 }

def c8PricesW : Tk → ℚ := fun _ => 0

theorem c8_optW_err : optimizeWeights { w_max := 2 } [("A", 1)] [] =
    Except.error (.valueError "w_max must be in (0, 1]") := by
  norm_num [optimizeWeights, listMax]

theorem c8_optL_err : optimizeWeights { switch_lambda := -1 } [("A", 1)] [] =
    Except.error (.valueError "switch_lambda must be >= 0") := by
  norm_num [optimizeWeights, listMax, dictGet]

/-- C8: configuration validation is lazy, not at construction time.
`__init__` stores the configuration without validating it and never raises;
for a valid configuration (positive horizon, `w_max` in `(0, 1]`,
nonnegative `switch_lambda`) `allocate` never returns a configuration error;
a non-positive `horizon_bars` raises the descriptive `ValueError` during
`allocate` whenever the thresholded signal list is nonempty; and the
out-of-range `w_max` and negative `switch_lambda` errors are raised by the
weight optimizer when it runs. -/
theorem C8_config_validation_is_lazy :
    (∀ cfg : AllocatorConfig, allocInit cfg = Except.ok allocInitState) ∧
    (∀ (cfg : AllocatorConfig) (alphaOf : ℤ → ℚ) (sqrtQ : ℚ → ℚ)
        (signals : List Signal) (prices : Tk → ℚ)
        (current_pos : Option (Tk → ℚ)) (st₀ : AllocState) (err : AllocError),
      0 < cfg.horizon_bars → 0 < cfg.w_max → cfg.w_max ≤ 1 →
      0 ≤ cfg.switch_lambda →
      allocate cfg alphaOf sqrtQ signals prices current_pos st₀ ≠
        Except.error err) ∧
    (∀ (cfg : AllocatorConfig) (alphaOf : ℤ → ℚ) (sqrtQ : ℚ → ℚ)
        (signals : List Signal) (prices : Tk → ℚ)
        (current_pos : Option (Tk → ℚ)) (st₀ : AllocState),
      cfg.horizon_bars ≤ 0 →
      signals.filter (fun s => decide (|s.s_dollars| ≥ cfg.min_threshold)) ≠ [] →
      allocate cfg alphaOf sqrtQ signals prices current_pos st₀ =
        Except.error (.valueError "horizon_bars must be > 0")) ∧
    optimizeWeights { w_max := 2 } [("A", 1)] [] =
      Except.error (.valueError "w_max must be in (0, 1]") ∧
    optimizeWeights { switch_lambda := -1 } [("A", 1)] [] =
      Except.error (.valueError "switch_lambda must be >= 0") :=
  ⟨fun _ => rfl,
   fun cfg a q s p c st err hh hw0 hw1 hl =>
     allocate_no_error cfg a q s p c st hh hw0 hw1 hl err,
   fun cfg a q s p c st hh hs => allocate_horizon_error cfg a q s p c st hh hs,
   c8_optW_err, c8_optL_err⟩

/-- C8, counterexample.  The claim asserts that constructing the allocator
with a degenerate configuration raises; `__init__` (allocator.py lines
89-107) performs no validation, and construction with `horizon_bars = 0`
succeeds. -/
theorem C8_counterexample :
    allocInit { horizon_bars := 0 } = Except.ok allocInitState := rfl

theorem C8_config_validation_is_lazy_witness :
    allocate {} alphaZero exactSqrt [] c8PricesW none allocInitState ≠
        Except.error (.valueError "w_max must be in (0, 1]") ∧
      allocate { horizon_bars := 0 } alphaZero exactSqrt [c8SigW] c8PricesW
          none allocInitState =
        Except.error (.valueError "horizon_bars must be > 0") := by
  constructor
  · exact C8_config_validation_is_lazy.2.1 {} alphaZero exactSqrt [] c8PricesW
      none allocInitState _ (by decide) (by norm_num) (by norm_num)
      (by norm_num)
  · refine C8_config_validation_is_lazy.2.2.1 _ alphaZero exactSqrt [c8SigW]
      c8PricesW none allocInitState (by decide) ?hf
    norm_num [c8SigW, List.filter]

end CitadelBot

